import Mathlib

/-!
Verification of the LEM circuit synthesizer of lurk-beta.

This file gives a shallow embedding of the LEM intermediate representation
(`Func`/`Block`/`Op`/`Ctrl`) and of the constraint synthesizer implemented in
`src/lem/circuit.rs`, together with the batch synthesis orchestration of
`src/lem/multiframe.rs` and the coprocessor call contract of
`src/coprocessor/mod.rs`.

The IR type declarations and the slot machinery (`slot.rs`) are not part of
the provided sources; their shape is reconstructed from the way
`circuit.rs` pattern-matches on them and, where indicated, modelled from the
specification.  The low-level constraint gadgets (`implies_equal`,
`alloc_equal`, ...) live in `circuit/gadgets/constraints.rs`, which is also
not among the provided sources; their constraint counts and semantics are
modelled from the specification and are stated as explicit constants and
satisfaction predicates below.
-/

namespace LurkLEM

/-- Modelled from the spec: the closed set of expression tags (`ExprTag` in
`tag.rs`, which is not among the provided sources).  "Finite, closed set of
variants partitioned into expression tags (numeric, symbol, cons, string,
character, comm(itment), function, thunk, u64, key, nil)". -/
inductive ExprTag where
  | num
  | u64
  | char
  | comm
  | sym
  | key
  | cons
  | nil
  | str
  | fn
  | thunk
  deriving DecidableEq, Repr

/-- Modelled from the spec: the continuation tags (`ContTag` in `tag.rs`,
which is not among the provided sources).  Only the four tags named by the
`Op::Null` compatibility shim in `circuit.rs` matter for the claims; a few
further pending-operation continuation tags are included so that the type is
not artificially collapsed. -/
inductive ContTag where
  | outermost
  | terminal
  | error
  | dummy
  | call0
  | call1
  | call2
  | tail
  | lookup
  | unop
  | binop
  | binop2
  | emitc
  | letc
  | letrec
  deriving DecidableEq, Repr

/-- The LEM tag type: either an expression tag or a continuation tag,
as matched by `Tag::Cont(...)`/`Tag::Expr(...)` in `circuit.rs`. -/
inductive Tag where
  | expr (t : ExprTag)
  | cont (t : ContTag)
  deriving DecidableEq, Repr

/-- Modelled from the spec: "Every tag maps to a fixed field-element
encoding; encoding is total and injective."  We enumerate the variants. -/
def Tag.toNat : Tag → ℕ
  | .expr .num => 0
  | .expr .u64 => 1
  | .expr .char => 2
  | .expr .comm => 3
  | .expr .sym => 4
  | .expr .key => 5
  | .expr .cons => 6
  | .expr .nil => 7
  | .expr .str => 8
  | .expr .fn => 9
  | .expr .thunk => 10
  | .cont .outermost => 16
  | .cont .terminal => 17
  | .cont .error => 18
  | .cont .dummy => 19
  | .cont .call0 => 20
  | .cont .call1 => 21
  | .cont .call2 => 22
  | .cont .tail => 23
  | .cont .lookup => 24
  | .cont .unop => 25
  | .cont .binop => 26
  | .cont .binop2 => 27
  | .cont .emitc => 28
  | .cont .letc => 29
  | .cont .letrec => 30

/-- The field encoding of a tag (`tag.to_field()`). -/
def tagField (F : Type) [NatCast F] (t : Tag) : F := (Tag.toNat t : F)

/-- The five slot types of `SlotType` (`slot.rs`, not among the provided
sources; the variants appear throughout `circuit.rs`). -/
inductive SlotType where
  | hash4
  | hash6
  | hash8
  | commitment
  | bitDecomp
  deriving DecidableEq, Repr

/-- Modelled from the spec: the number of preimage components of each slot
type (`SlotType::preimg_size` in the missing `slot.rs`): two field elements
(tag and hash) per pointer for the hash slots, secret plus tag and hash of
the payload for commitments, a single field element for bit decomposition. -/
def SlotType.preimgSize : SlotType → ℕ
  | .hash4 => 4
  | .hash6 => 6
  | .hash8 => 8
  | .commitment => 3
  | .bitDecomp => 1

/-- The per-type slot counters (`SlotsCounter` in the missing `slot.rs`;
its five fields `hash4`, `hash6`, `hash8`, `commitment`, `bit_decomp` are
used by name in `circuit.rs`). -/
structure SlotsCounter where
  hash4 : ℕ
  hash6 : ℕ
  hash8 : ℕ
  commitment : ℕ
  bitDecomp : ℕ
  deriving DecidableEq, Repr

/-- The zero counter (`SlotsCounter::default()`). -/
def SlotsCounter.zero : SlotsCounter := ⟨0, 0, 0, 0, 0⟩

/-- Componentwise sum of slot counters. -/
def SlotsCounter.add (a b : SlotsCounter) : SlotsCounter :=
  ⟨a.hash4 + b.hash4, a.hash6 + b.hash6, a.hash8 + b.hash8,
   a.commitment + b.commitment, a.bitDecomp + b.bitDecomp⟩

/-- Modelled from the spec: componentwise maximum of slot counters
(`SlotsCounter::max` in the missing `slot.rs`); "the slot-count contribution
is the per-type maximum across branches". -/
def SlotsCounter.max (a b : SlotsCounter) : SlotsCounter :=
  ⟨Nat.max a.hash4 b.hash4, Nat.max a.hash6 b.hash6, Nat.max a.hash8 b.hash8,
   Nat.max a.commitment b.commitment, Nat.max a.bitDecomp b.bitDecomp⟩

/-- A LEM variable name. -/
abbrev Var := String

mutual

/-- The LEM operations, as pattern-matched by `synthesize_frame`,
`alloc_globals` and `num_constraints` in `circuit.rs`.  A `call` carries the
callee's input parameters and body (the only fields of the callee `Func`
read at a call site in `circuit.rs`). -/
inductive Op where
  | cproc (out : List Var) (sym : ℕ) (inp : List Var)
  | call (out : List Var) (params : List Var) (body : Block) (inp : List Var)
  | cons2 (img : Var) (tag : Tag) (preimg : List Var)
  | cons3 (img : Var) (tag : Tag) (preimg : List Var)
  | cons4 (img : Var) (tag : Tag) (preimg : List Var)
  | decons2 (preimg : List Var) (img : Var)
  | decons3 (preimg : List Var) (img : Var)
  | decons4 (preimg : List Var) (img : Var)
  | null (tgt : Var) (tag : Tag)
  | lit (tgt : Var) (l : ℕ)
  | cast (tgt : Var) (tag : Tag) (src : Var)
  | eqTag (tgt : Var) (a : Var) (b : Var)
  | eqVal (tgt : Var) (a : Var) (b : Var)
  | not (tgt : Var) (a : Var)
  | and (tgt : Var) (a : Var) (b : Var)
  | or (tgt : Var) (a : Var) (b : Var)
  | add (tgt : Var) (a : Var) (b : Var)
  | sub (tgt : Var) (a : Var) (b : Var)
  | mul (tgt : Var) (a : Var) (b : Var)
  | div (tgt : Var) (a : Var) (b : Var)
  | lt (tgt : Var) (a : Var) (b : Var)
  | trunc (tgt : Var) (a : Var) (n : ℕ)
  | divRem64 (tgt1 : Var) (tgt2 : Var) (a : Var) (b : Var)
  | emit (v : Var)
  | hide (tgt : Var) (sec : Var) (pay : Var)
  | openC (sec : Var) (pay : Var) (comm : Var)

/-- The LEM control statements (`Ctrl` in `circuit.rs`): return, boolean
branch, match on a tag, match on a symbol (cases keyed by interned symbol,
here an opaque symbol identifier). -/
inductive Ctrl where
  | ret (vars : List Var)
  | ite (b : Var) (tBlk : Block) (fBlk : Block)
  | matchTag (v : Var) (cases : List (Tag × Block)) (defBlk : Option Block)
  | matchSymbol (v : Var) (cases : List (ℕ × Block)) (defBlk : Option Block)

/-- A block: a sequence of operations followed by one control statement. -/
inductive Block where
  | mk (ops : List Op) (ctrl : Ctrl)

end

/-- The operation list of a block. -/
def Block.ops : Block → List Op
  | .mk ops _ => ops

/-- The control statement of a block. -/
def Block.ctrl : Block → Ctrl
  | .mk _ ctrl => ctrl

/-- A LEM function: input parameters, output arity, the statically computed
slot counters (`Func.slot`), and a body. -/
structure Func where
  inputParams : List Var
  outputSize : ℕ
  slot : SlotsCounter
  body : Block

/-- The slot consumption of a single non-call op, as read off the
`consume_hash4`/`consume_hash6`/`consume_hash8`/`consume_commitment`/
`consume_bit_decomp` calls in `synthesize_frame` (`circuit.rs`): `Cons2` and
`Decons2` use one Hash4 slot, `Cons3`/`Decons3` one Hash6 slot,
`Cons4`/`Decons4` one Hash8 slot, `Hide` and `Open` one commitment slot,
`Lt` three bit-decomposition slots and `Trunc` one.  `call` is handled
separately by recursion. -/
def opLeafSlots : Op → SlotsCounter
  | .cons2 .. => ⟨1, 0, 0, 0, 0⟩
  | .decons2 .. => ⟨1, 0, 0, 0, 0⟩
  | .cons3 .. => ⟨0, 1, 0, 0, 0⟩
  | .decons3 .. => ⟨0, 1, 0, 0, 0⟩
  | .cons4 .. => ⟨0, 0, 1, 0, 0⟩
  | .decons4 .. => ⟨0, 0, 1, 0, 0⟩
  | .hide .. => ⟨0, 0, 0, 1, 0⟩
  | .openC .. => ⟨0, 0, 0, 1, 0⟩
  | .lt .. => ⟨0, 0, 0, 0, 3⟩
  | .trunc .. => ⟨0, 0, 0, 0, 1⟩
  | _ => SlotsCounter.zero

mutual

/-- Modelled from the spec: the static slot count of a block (`count_slots`
in the missing `slot.rs`).  "For `If`/`MatchTag`/`MatchSymbol`, the
slot-count contribution is the per-type maximum across branches (not the
sum) ...; for a linear sequence of Ops, contributions sum.  Nested Func
calls contribute the callee's counts at the call site." -/
def countSlotsBlock : Block → SlotsCounter
  | .mk ops ctrl => (countSlotsOps ops).add (countSlotsCtrl ctrl)

/-- Static slot count of an op sequence: contributions sum. -/
def countSlotsOps : List Op → SlotsCounter
  | [] => SlotsCounter.zero
  | op :: ops => (countSlotsOp op).add (countSlotsOps ops)

/-- Static slot count of one op. -/
def countSlotsOp : Op → SlotsCounter
  | .call _ _ body _ => countSlotsBlock body
  | op => opLeafSlots op

/-- Static slot count of a control statement: per-type maximum across all
branches (and the default, when present). -/
def countSlotsCtrl : Ctrl → SlotsCounter
  | .ret _ => SlotsCounter.zero
  | .ite _ tBlk fBlk => (countSlotsBlock tBlk).max (countSlotsBlock fBlk)
  | .matchTag _ cases defBlk =>
      countSlotsCasesT cases (countSlotsOpt defBlk)
  | .matchSymbol _ cases defBlk =>
      countSlotsCasesS cases (countSlotsOpt defBlk)

/-- Maximum of the static slot counts of tag-match cases, accumulated. -/
def countSlotsCasesT : List (Tag × Block) → SlotsCounter → SlotsCounter
  | [], acc => acc
  | c :: cs, acc => countSlotsCasesT cs (acc.max (countSlotsBlock c.2))

/-- Maximum of the static slot counts of symbol-match cases, accumulated. -/
def countSlotsCasesS : List (ℕ × Block) → SlotsCounter → SlotsCounter
  | [], acc => acc
  | c :: cs, acc => countSlotsCasesS cs (acc.max (countSlotsBlock c.2))

/-- Static slot count of an optional default block. -/
def countSlotsOpt : Option Block → SlotsCounter
  | none => SlotsCounter.zero
  | some b => countSlotsBlock b

end

mutual

/-- The slot counter state after the synthesizer walks a block, from
`recurse` in `Func::synthesize_frame` (`circuit.rs`): ops consume slots in
sequence via `next_slot.consume_*`; `If` runs the true branch on a copy of
the counter and the false branch on the counter itself, then takes the
componentwise maximum; the match controls run every case on a copy of the
incoming counter, run the default on the counter itself, and fold the
branch counters with `fold_max`. -/
def synthSlotsBlock : Block → SlotsCounter → SlotsCounter
  | .mk ops ctrl, c => synthSlotsCtrl ctrl (synthSlotsOps ops c)

/-- Slot consumption of an op sequence during synthesis. -/
def synthSlotsOps : List Op → SlotsCounter → SlotsCounter
  | [], c => c
  | op :: ops, c => synthSlotsOps ops (synthSlotsOp op c)

/-- Slot consumption of one op during synthesis; a call descends into the
callee's body with the caller's counter. -/
def synthSlotsOp : Op → SlotsCounter → SlotsCounter
  | .call _ _ body _, c => synthSlotsBlock body c
  | op, c => c.add (opLeafSlots op)

/-- Slot consumption of a control statement during synthesis.  Both `If`
blocks and every match case (and the default) are always descended into. -/
def synthSlotsCtrl : Ctrl → SlotsCounter → SlotsCounter
  | .ret _, c => c
  | .ite _ tBlk fBlk, c =>
      (synthSlotsBlock fBlk c).max (synthSlotsBlock tBlk c)
  | .matchTag _ cases defBlk, c =>
      synthSlotsCasesT cases c (synthSlotsOpt defBlk c)
  | .matchSymbol _ cases defBlk, c =>
      synthSlotsCasesS cases c (synthSlotsOpt defBlk c)

/-- The `fold_max` fold over the per-case counters of a tag match, each case starting
from the incoming counter `c`; `acc` starts from the counter after the
default branch. -/
def synthSlotsCasesT : List (Tag × Block) → SlotsCounter → SlotsCounter → SlotsCounter
  | [], _, acc => acc
  | cb :: cs, c, acc => synthSlotsCasesT cs c (acc.max (synthSlotsBlock cb.2 c))

/-- The `fold_max` fold over the per-case counters of a symbol match. -/
def synthSlotsCasesS : List (ℕ × Block) → SlotsCounter → SlotsCounter → SlotsCounter
  | [], _, acc => acc
  | cb :: cs, c, acc => synthSlotsCasesS cs c (acc.max (synthSlotsBlock cb.2 c))

/-- Slot consumption of an optional default block during synthesis. -/
def synthSlotsOpt : Option Block → SlotsCounter → SlotsCounter
  | none, c => c
  | some b, c => synthSlotsBlock b c

end

theorem SlotsCounter.add_zero (a : SlotsCounter) : a.add SlotsCounter.zero = a := by
  cases a
  simp [SlotsCounter.add, SlotsCounter.zero]

theorem SlotsCounter.add_assoc (a b c : SlotsCounter) :
    (a.add b).add c = a.add (b.add c) := by
  cases a; cases b; cases c
  simp only [SlotsCounter.add, SlotsCounter.mk.injEq]
  refine ⟨?_, ?_, ?_, ?_, ?_⟩ <;> omega

theorem SlotsCounter.add_max (c a b : SlotsCounter) :
    (c.add a).max (c.add b) = c.add (a.max b) := by
  cases c; cases a; cases b
  simp only [SlotsCounter.add, SlotsCounter.max, SlotsCounter.mk.injEq]
  refine ⟨?_, ?_, ?_, ?_, ?_⟩ <;> exact Nat.add_max_add_left _ _ _

theorem SlotsCounter.max_comm (a b : SlotsCounter) : a.max b = b.max a := by
  cases a; cases b
  simp only [SlotsCounter.max, SlotsCounter.mk.injEq]
  refine ⟨?_, ?_, ?_, ?_, ?_⟩ <;> exact Nat.max_comm _ _

mutual

theorem synthSlotsBlock_eq (b : Block) (c : SlotsCounter) :
    synthSlotsBlock b c = c.add (countSlotsBlock b) := by
  match b with
  | .mk ops ctrl =>
    rw [synthSlotsBlock, countSlotsBlock, synthSlotsOps_eq, synthSlotsCtrl_eq,
      SlotsCounter.add_assoc]

theorem synthSlotsOps_eq (ops : List Op) (c : SlotsCounter) :
    synthSlotsOps ops c = c.add (countSlotsOps ops) := by
  match ops with
  | [] => rw [synthSlotsOps, countSlotsOps, SlotsCounter.add_zero]
  | op :: rest =>
    rw [synthSlotsOps, countSlotsOps, synthSlotsOp_eq, synthSlotsOps_eq,
      SlotsCounter.add_assoc]

theorem synthSlotsOp_eq (op : Op) (c : SlotsCounter) :
    synthSlotsOp op c = c.add (countSlotsOp op) := by
  match op with
  | .call out params body inp =>
    rw [synthSlotsOp, countSlotsOp, synthSlotsBlock_eq]
  | .cproc .. => rfl
  | .cons2 .. => rfl
  | .cons3 .. => rfl
  | .cons4 .. => rfl
  | .decons2 .. => rfl
  | .decons3 .. => rfl
  | .decons4 .. => rfl
  | .null .. => rfl
  | .lit .. => rfl
  | .cast .. => rfl
  | .eqTag .. => rfl
  | .eqVal .. => rfl
  | .not .. => rfl
  | .and .. => rfl
  | .or .. => rfl
  | .add .. => rfl
  | .sub .. => rfl
  | .mul .. => rfl
  | .div .. => rfl
  | .lt .. => rfl
  | .trunc .. => rfl
  | .divRem64 .. => rfl
  | .emit .. => rfl
  | .hide .. => rfl
  | .openC .. => rfl

theorem synthSlotsCtrl_eq (ct : Ctrl) (c : SlotsCounter) :
    synthSlotsCtrl ct c = c.add (countSlotsCtrl ct) := by
  match ct with
  | .ret vars => rw [synthSlotsCtrl, countSlotsCtrl, SlotsCounter.add_zero]
  | .ite v tBlk fBlk =>
    rw [synthSlotsCtrl, countSlotsCtrl, synthSlotsBlock_eq, synthSlotsBlock_eq,
      SlotsCounter.add_max, SlotsCounter.max_comm]
  | .matchTag v cases defBlk =>
    rw [synthSlotsCtrl, countSlotsCtrl, synthSlotsOpt_eq, synthSlotsCasesT_eq]
  | .matchSymbol v cases defBlk =>
    rw [synthSlotsCtrl, countSlotsCtrl, synthSlotsOpt_eq, synthSlotsCasesS_eq]

theorem synthSlotsCasesT_eq (cs : List (Tag × Block)) (c acc : SlotsCounter) :
    synthSlotsCasesT cs c (c.add acc) = c.add (countSlotsCasesT cs acc) := by
  match cs with
  | [] => rw [synthSlotsCasesT, countSlotsCasesT]
  | cb :: rest =>
    rw [synthSlotsCasesT, countSlotsCasesT, synthSlotsBlock_eq,
      SlotsCounter.add_max, synthSlotsCasesT_eq]

theorem synthSlotsCasesS_eq (cs : List (ℕ × Block)) (c acc : SlotsCounter) :
    synthSlotsCasesS cs c (c.add acc) = c.add (countSlotsCasesS cs acc) := by
  match cs with
  | [] => rw [synthSlotsCasesS, countSlotsCasesS]
  | cb :: rest =>
    rw [synthSlotsCasesS, countSlotsCasesS, synthSlotsBlock_eq,
      SlotsCounter.add_max, synthSlotsCasesS_eq]

theorem synthSlotsOpt_eq (ob : Option Block) (c : SlotsCounter) :
    synthSlotsOpt ob c = c.add (countSlotsOpt ob) := by
  match ob with
  | none => rw [synthSlotsOpt, countSlotsOpt, SlotsCounter.add_zero]
  | some b => rw [synthSlotsOpt, countSlotsOpt, synthSlotsBlock_eq]

end

/-- Claim C4: the static slot count of a Func is the per-type maximum across
the branches of an If/MatchTag/MatchSymbol (not their sum) and the sum of
contributions along a linear sequence of Ops; the synthesizer consumes slot
indices by the same maximum-across-branches, sum-within-sequence rule while
always descending into every branch, so starting from any counter the slots
consumed by `synthesize_frame`'s recursion equal the incoming counter plus
the static budget; in particular, from the zero counter the slots consumed
are exactly the static budget. -/
theorem c4_slots_consumed_match_static_budget (f : Func) (c : SlotsCounter) :
    synthSlotsBlock f.body c = c.add (countSlotsBlock f.body) ∧
    synthSlotsBlock f.body SlotsCounter.zero = countSlotsBlock f.body := by
  constructor
  · exact synthSlotsBlock_eq f.body c
  · rw [synthSlotsBlock_eq f.body SlotsCounter.zero]
    cases countSlotsBlock f.body
    simp [SlotsCounter.add, SlotsCounter.zero]
/-- A hashed pointer (`ZPtr`): the field encoding of the tag together with
the content hash. -/
structure ZPtr (F : Type) where
  tagF : F
  val : F
  deriving DecidableEq, Repr

/-- The store as seen by the synthesizer: a read-only (hydrated) source of
structural hashes and constants.  `hashPtr` models `Store::hash_ptr` on the
(opaque) pointers recorded in a frame's hints; `litTagF`/`litValF` model the
z-pointer of `lit.to_ptr(store)`; `symHash` models the content hash of
`store.intern_symbol(sym)`; `hash8zeros` models
`store.poseidon_cache.hash8(&[F::ZERO; 8])`; `h4`/`h6`/`h8`/`h3` model the
Poseidon hashes with constants `c4`/`c6`/`c8`/`c3`; `toBitsLE` models the
bit decomposition performed by `to_bits_le_strict`. -/
structure StoreModel (F : Type) where
  hashPtr : ℕ → ZPtr F
  litTagF : ℕ → F
  litValF : ℕ → F
  symHash : ℕ → F
  hash8zeros : F
  h4 : List F → F
  h6 : List F → F
  h8 : List F → F
  h3 : List F → F
  toBitsLE : F → List Bool

/-- The data collected by the interpreter for one slot (`SlotData` in the
missing `slot.rs`): a vector of pointers for the hash slots, a field element
plus a pointer for commitment slots, a single field element for
bit-decomposition slots.  Pointers are opaque store indices resolved through
`StoreModel.hashPtr`. -/
inductive SlotData (F : Type) where
  | ptrVec (ptrs : List ℕ)
  | fptr (f : F) (p : ℕ)
  | fnum (a : F)
  deriving DecidableEq, Repr

/-- Modelled from the spec: `SlotType::is_compatible` from the missing
`slot.rs` — a slot datum fits a slot type when its shape and arity match the
gadget (2/3/4 pointers for the hash slots, secret-and-pointer for
commitments, one field element for bit decomposition). -/
def SlotType.isCompatible {F : Type} : SlotType → SlotData F → Bool
  | .hash4, .ptrVec l => l.length = 2
  | .hash6, .ptrVec l => l.length = 3
  | .hash8, .ptrVec l => l.length = 4
  | .commitment, .fptr _ _ => true
  | .bitDecomp, .fnum _ => true
  | _, _ => false

/-- A value allocated for a slot image (`AllocatedVal` in `circuit.rs`,
restricted to the two variants produced by `allocate_img_for_slot`). -/
inductive AllocVal (F : Type) where
  | num (x : F)
  | bits (bs : List Bool)
  deriving DecidableEq, Repr

/-- The preimage components allocated for a slot datum in `allocate_slots`
(`circuit.rs`): for each pointer of a `PtrVec` the tag field and content
hash of its z-pointer; for `FPtr` the field element followed by tag and
hash of the pointer; for `F` the single field element. -/
def slotDataPreimg {F : Type} (store : StoreModel F) : SlotData F → List F
  | .ptrVec ps => ps.flatMap fun p => [(store.hashPtr p).tagF, (store.hashPtr p).val]
  | .fptr f p => [f, (store.hashPtr p).tagF, (store.hashPtr p).val]
  | .fnum a => [a]

/-- Models `allocate_img_for_slot` (`circuit.rs`, lines 125-162): the slot image is
computed from the preimage by the gadget matching the slot type — Poseidon
with constants `c4`/`c6`/`c8` for the hash slots, Poseidon with constants
`c3` for commitments, and a strict little-endian bit decomposition of the
single preimage component for `BitDecomp`. -/
def allocImgForSlot {F : Type} [Zero F] (store : StoreModel F) (typ : SlotType)
    (preimg : List F) : AllocVal F :=
  match typ with
  | .hash4 => .num (store.h4 preimg)
  | .hash6 => .num (store.h6 preimg)
  | .hash8 => .num (store.h8 preimg)
  | .commitment => .num (store.h3 preimg)
  | .bitDecomp => .bits (store.toBitsLE (preimg.headD 0))

/-- One entry of `allocate_slots` (`circuit.rs`, lines 181-265): a slot with
interpreter data allocates the preimage from the datum's concrete values
(after the `is_compatible` assertion); a slot without data allocates every
preimage component as the field zero.  In both cases the image is obtained
from `allocate_img_for_slot`. -/
def allocateSlotEntry {F : Type} [Zero F] (store : StoreModel F) (typ : SlotType) :
    Option (SlotData F) → Except String (List F × AllocVal F)
  | some sd =>
      if typ.isCompatible sd then
        .ok (slotDataPreimg store sd,
             allocImgForSlot store typ (slotDataPreimg store sd))
      else .error "slot type incompatible with slot data"
  | none =>
      .ok (List.replicate typ.preimgSize (0 : F),
           allocImgForSlot store typ (List.replicate typ.preimgSize (0 : F)))

/-- The allocation loop of `allocate_slots` over the collected slot data. -/
def allocateSlotsGo {F : Type} [Zero F] (store : StoreModel F) (typ : SlotType) :
    List (Option (SlotData F)) → Except String (List (List F × AllocVal F))
  | [] => .ok []
  | hd :: tl => do
      let r ← allocateSlotEntry store typ hd
      let rest ← allocateSlotsGo store typ tl
      .ok (r :: rest)

/-- Models `allocate_slots` (`circuit.rs`, lines 165-269): asserts that the number
of collected (optional) slot data equals the statically computed number of
slots for this type, then allocates a preimage and an image for every slot
in order. -/
def allocateSlots {F : Type} [Zero F] (store : StoreModel F)
    (slotsData : List (Option (SlotData F))) (typ : SlotType)
    (numSlots : ℕ) : Except String (List (List F × AllocVal F)) :=
  if slotsData.length = numSlots then
    allocateSlotsGo store typ slotsData
  else
    .error "collected preimages not equal to the number of available slots"

theorem allocateSlotEntry_ok {F : Type} [Zero F] (store : StoreModel F)
    (typ : SlotType) (h : Option (SlotData F)) (r : List F × AllocVal F)
    (hr : allocateSlotEntry store typ h = .ok r) :
    (∀ sd, h = some sd →
        r = (slotDataPreimg store sd,
             allocImgForSlot store typ (slotDataPreimg store sd))) ∧
    (h = none →
        r = (List.replicate typ.preimgSize (0 : F),
             allocImgForSlot store typ (List.replicate typ.preimgSize (0 : F)))) := by
  constructor
  · intro sd hsd
    subst hsd
    rw [allocateSlotEntry] at hr
    cases hc : typ.isCompatible sd with
    | false => simp [hc] at hr
    | true =>
      simp only [hc, if_true] at hr
      cases hr
      rfl
  · intro hnone
    subst hnone
    rw [allocateSlotEntry] at hr
    cases hr
    rfl

theorem allocateSlotsGo_ok {F : Type} [Zero F] (store : StoreModel F)
    (typ : SlotType) (l : List (Option (SlotData F)))
    (rs : List (List F × AllocVal F))
    (hr : allocateSlotsGo store typ l = .ok rs) :
    rs.length = l.length ∧
    ∀ i, i < l.length →
      ∃ r, rs.get? i = some r ∧
        allocateSlotEntry store typ (l.getD i none) = .ok r := by
  induction l generalizing rs with
  | nil =>
    rw [allocateSlotsGo] at hr
    cases hr
    exact ⟨rfl, by intro i hi; simp at hi⟩
  | cons hd tl ih =>
    rw [allocateSlotsGo] at hr
    cases hhd : allocateSlotEntry store typ hd with
    | error e => rw [hhd] at hr; simp [Bind.bind, Except.bind] at hr
    | ok rhd =>
      rw [hhd] at hr
      cases htl : allocateSlotsGo store typ tl with
      | error e =>
        rw [htl] at hr
        simp [Bind.bind, Except.bind] at hr
      | ok rtl =>
        rw [htl] at hr
        simp only [Bind.bind, Except.bind] at hr
        cases hr
        obtain ⟨hlen, hall⟩ := ih rtl htl
        refine ⟨by simp [hlen], ?_⟩
        intro i hi
        cases i with
        | zero => exact ⟨rhd, rfl, hhd⟩
        | succ j =>
          have hj : j < tl.length := by simpa using hi
          obtain ⟨r, hg, he⟩ := hall j hj
          exact ⟨r, by simpa using hg, by simpa using he⟩

/-- Claim C2: for each slot type, the synthesizer allocates exactly the
statically computed number of slots regardless of how many the concrete
path used; a slot whose hint is present is filled with the hint's concrete
values, a slot whose hint is absent has every preimage component filled
with the field zero, and in both cases the slot's image is computed by the
gadget's arithmetic relation, so unused slots still produce well-formed
constraints. -/
theorem c2_slot_allocation {F : Type} [Zero F] (store : StoreModel F)
    (slotsData : List (Option (SlotData F))) (typ : SlotType) (numSlots : ℕ)
    (rs : List (List F × AllocVal F))
    (hok : allocateSlots store slotsData typ numSlots = .ok rs) :
    rs.length = numSlots ∧
    ∀ i, i < numSlots →
      ∃ r, rs.get? i = some r ∧
        r.2 = allocImgForSlot store typ r.1 ∧
        (∀ sd, slotsData.getD i none = some sd → r.1 = slotDataPreimg store sd) ∧
        (slotsData.getD i none = none →
          r.1 = List.replicate typ.preimgSize (0 : F)) := by
  rw [allocateSlots] at hok
  by_cases hlen : slotsData.length = numSlots
  · simp only [hlen, if_true] at hok
    obtain ⟨hrl, hall⟩ := allocateSlotsGo_ok store typ slotsData rs hok
    refine ⟨by rw [hrl, hlen], ?_⟩
    intro i hi
    obtain ⟨r, hg, he⟩ := hall i (by omega)
    obtain ⟨hsome, hnone⟩ := allocateSlotEntry_ok store typ _ r he
    refine ⟨r, hg, ?_, ?_, ?_⟩
    · cases hd : slotsData.getD i none with
      | none => rw [hnone hd]
      | some sd => rw [hsome sd hd]
    · intro sd hd
      rw [hsome sd hd]
    · intro hd
      rw [hnone hd]
  · simp [hlen] at hok

/-- A concrete store over the integers used by witnesses. -/
def exStore : StoreModel ℤ where
  hashPtr := fun p => ⟨(p : ℤ), 2 * (p : ℤ)⟩
  litTagF := fun _ => 0
  litValF := fun _ => 0
  symHash := fun _ => 0
  hash8zeros := 7
  h4 := List.sum
  h6 := List.sum
  h8 := List.sum
  h3 := List.sum
  toBitsLE := fun _ => []

/-- Concrete slot hints for the C2 witness. -/
def c2Hints : List (Option (SlotData ℤ)) := [some (SlotData.ptrVec [1, 2]), none]

/-- Concrete expected slot allocations for the C2 witness. -/
def c2Slots : List (List ℤ × AllocVal ℤ) :=
  [([1, 2, 2, 4], .num 9), ([0, 0, 0, 0], .num 0)]

/-- Witness for C2 at a concrete instance: two Hash4 slots, the first with a
hint of two pointers, the second absent; the allocation succeeds, has
length two, and every entry's image is the gadget applied to its preimage. -/
theorem c2_slot_allocation_witness :
    allocateSlots exStore c2Hints SlotType.hash4 2 = .ok c2Slots ∧
    (c2Slots.length = 2 ∧
      ∀ i, i < 2 →
        ∃ r, c2Slots.get? i = some r ∧
          r.2 = allocImgForSlot exStore SlotType.hash4 r.1 ∧
          (∀ sd, c2Hints.getD i none = some sd → r.1 = slotDataPreimg exStore sd) ∧
          (c2Hints.getD i none = none →
            r.1 = List.replicate SlotType.hash4.preimgSize (0 : ℤ))) :=
  ⟨by rfl, c2_slot_allocation exStore c2Hints SlotType.hash4 2 c2Slots (by rfl)⟩


/-- Whether a tag falls under the temporary Lurk-Alpha compatibility shim of
`Op::Null`: the continuation tags `Outermost`, `Error`, `Dummy` and
`Terminal` (`circuit.rs`, lines 296-304 and 1357-1365). -/
def Tag.isContShim : Tag → Bool
  | .cont .outermost => true
  | .cont .error => true
  | .cont .dummy => true
  | .cont .terminal => true
  | _ => false

/-- The field encoding of the `Num` expression tag. -/
def numTagF (F : Type) [NatCast F] : F := tagField F (.expr .num)

/-- The field encoding of the `Comm` expression tag. -/
def commTagF (F : Type) [NatCast F] : F := tagField F (.expr .comm)

/-- The field encoding of the `Sym` expression tag. -/
def symTagF (F : Type) [NatCast F] : F := tagField F (.expr .sym)

/-- Modelled from the spec: constraint cost of `implies_equal` — a single
premise-gated linear constraint (`circuit/gadgets/constraints.rs` is not
among the provided sources). -/
def impliesEqualCost : ℕ := 1

/-- Modelled from the spec: constraint cost of `implies_equal_const`. -/
def impliesEqualConstCost : ℕ := 1

/-- Modelled from the spec: constraint cost of `implies_unequal_const` — one
constraint over an auxiliary inverse witness. -/
def impliesUnequalConstCost : ℕ := 1

/-- Modelled from the spec: constraint cost of allocating one
`AllocatedBit` — its booleanity constraint. -/
def allocBitCost : ℕ := 1

/-- Modelled from the spec: constraint cost of `alloc_equal`. -/
def allocEqualCost : ℕ := 3

/-- Modelled from the spec: constraint cost of the boolean `and`/`or`
gadgets.  When one operand is a `Boolean::Constant` the gadget folds and
emits no constraint; on two allocated booleans it emits one.  Inside
`synthesize_frame` a constant operand arises exactly when the `not_dummy`
premise is the top-level `Boolean::Constant(true)`; every boolean bound in
`bound_allocations` is allocated (produced by `alloc_equal`, `and`, `or`,
`Boolean::not` or the `Lt` gadget), never constant. -/
def andGadgetCost (constantOperand : Bool) : ℕ := if constantOperand then 0 else 1

/-- Modelled from the spec: constraint cost of the field `add` gadget. -/
def addGadgetCost : ℕ := 1

/-- Modelled from the spec: constraint cost of the field `sub` gadget. -/
def subGadgetCost : ℕ := 1

/-- Modelled from the spec: constraint cost of the field `mul` gadget. -/
def mulGadgetCost : ℕ := 1

/-- Modelled from the spec: constraint cost of `alloc_is_zero`. -/
def allocIsZeroCost : ℕ := 2

/-- Modelled from the spec: constraint cost of `pick`. -/
def pickCost : ℕ := 1

/-- Modelled from the spec: constraint cost of the field `div` gadget
(inverse allocation plus the product constraint). -/
def divGadgetCost : ℕ := 2

/-- Modelled from the spec: constraint cost of `Boolean::xor`. -/
def xorCost : ℕ := 1

/-- Modelled from the spec: constraint cost of `implies_pack`. -/
def impliesPackCost : ℕ := 1

/-- Modelled from the spec: constraint cost of `implies_u64` — a 64-bit
decomposition plus the gated packing constraint. -/
def impliesU64Cost : ℕ := 65

/-- Modelled from the spec: constraint cost of `enforce_product_and_sum`. -/
def productAndSumCost : ℕ := 1

/-- Modelled from the spec: constraint cost of
`enforce_selector_with_premise`. -/
def selectorCost : ℕ := 1

/-- Modelled from the spec: the fixed constraint cost of one pre-allocated
slot of each type — the Poseidon gadgets for the hash and commitment slots
and `to_bits_le_strict` for bit decomposition.  The constants agree with the
per-slot costs used by `Func::num_constraints` (`circuit.rs`, lines
1489-1493). -/
def slotTypeCost : SlotType → ℕ
  | .hash4 => 289
  | .hash6 => 337
  | .hash8 => 388
  | .commitment => 265
  | .bitDecomp => 388

/-- The aspects of a `Lang` coprocessor relevant to constraint counting:
whether it implements a circuit (`Coprocessor::has_circuit`,
`coprocessor/mod.rs`) and, if so, how many constraints its
`synthesize_lem_internal` emits. -/
structure CoprocCost where
  hasCircuit : Bool
  circuitCost : ℕ

/-- A `Lang` as a lookup from coprocessor symbols
(`lang.lookup_by_sym`). -/
abbrev LangCost := ℕ → Option CoprocCost

mutual

/-- The number of constraints emitted by the recursion of
`Func::synthesize_frame` (`circuit.rs`, lines 493-1291) on a block.
`premiseConst` records whether the `not_dummy` premise is the constant
`Boolean::Constant(true)` (true only for the top-level block: every branch
premise is an allocated boolean or a conjunction with one). -/
def synthCountBlock (L : LangCost) : Block → Bool → ℕ
  | .mk ops ctrl, pc => synthCountOps L ops pc + synthCountCtrl L ctrl pc

/-- Constraints emitted for a sequence of ops. -/
def synthCountOps (L : LangCost) : List Op → Bool → ℕ
  | [], _ => 0
  | op :: ops, pc => synthCountOp L op pc + synthCountOps L ops pc

/-- Constraints emitted for one op, mirroring the gadget calls of each arm
of the `match op` in `synthesize_frame`.  A coprocessor with a circuit
contributes its circuit's constraints; one without a circuit only allocates
the hint values (no constraints).  Allocations (`AllocatedNum::alloc`,
`AllocatedPtr::alloc`) emit no constraints. -/
def synthCountOp (L : LangCost) : Op → Bool → ℕ
  | .cproc _ sym _, _ =>
      match L sym with
      | some cp => if cp.hasCircuit then cp.circuitCost else 0
      | none => 0
  | .call _ _ body _, pc => synthCountBlock L body pc
  | .cons2 .., _ => 2 * (2 * impliesEqualCost)
  | .cons3 .., _ => 3 * (2 * impliesEqualCost)
  | .cons4 .., _ => 4 * (2 * impliesEqualCost)
  | .decons2 .., _ => impliesEqualCost
  | .decons3 .., _ => impliesEqualCost
  | .decons4 .., _ => impliesEqualCost
  | .null .., _ => 0
  | .lit .., _ => 0
  | .cast .., _ => 0
  | .eqTag .., _ => allocEqualCost
  | .eqVal .., _ => allocEqualCost
  | .not .., _ => 0
  | .and .., _ => andGadgetCost false
  | .or .., _ => andGadgetCost false
  | .add .., _ => addGadgetCost
  | .sub .., _ => subGadgetCost
  | .mul .., _ => mulGadgetCost
  | .div .., _ => allocIsZeroCost + pickCost + divGadgetCost
  | .lt .., _ =>
      subGadgetCost + 3 * addGadgetCost + 3 * impliesEqualCost + xorCost +
        2 * andGadgetCost false + andGadgetCost false
  | .trunc .., _ => impliesEqualCost + impliesPackCost
  | .divRem64 .., _ => subGadgetCost + 3 * impliesU64Cost + productAndSumCost
  | .emit _, _ => 0
  | .hide .., _ => 4 * impliesEqualCost
  | .openC .., _ => 2 * impliesEqualCost

/-- Constraints emitted for a control statement.  `Return` emits one
`implies_ptr_equal` (tag and hash) per returned variable.  `If` emits the
two `and` conjunctions of the branch condition with the premise and
descends into both blocks with non-constant premises.  The matches emit,
per case, one allocated boolean and one gated equality; for the default,
one allocated boolean and one gated inequality per case; and one selector
constraint.  `MatchSymbol` additionally enforces the matched variable's tag
against `Sym`. -/
def synthCountCtrl (L : LangCost) : Ctrl → Bool → ℕ
  | .ret vars, _ => vars.length * (2 * impliesEqualCost)
  | .ite _ tBlk fBlk, pc =>
      andGadgetCost pc + andGadgetCost pc +
        synthCountBlock L tBlk false + synthCountBlock L fBlk false
  | .matchTag _ cases defBlk, _ =>
      synthCountCasesT L cases + synthCountDefault L defBlk cases.length +
        selectorCost
  | .matchSymbol _ cases defBlk, _ =>
      synthCountCasesS L cases + synthCountDefault L defBlk cases.length +
        selectorCost + impliesEqualCost

/-- Per-case constraints of a tag match: the allocated case boolean, the
gated equality with the case constant, and the case block. -/
def synthCountCasesT (L : LangCost) : List (Tag × Block) → ℕ
  | [] => 0
  | cb :: cs =>
      allocBitCost + impliesEqualConstCost + synthCountBlock L cb.2 false +
        synthCountCasesT L cs

/-- Per-case constraints of a symbol match. -/
def synthCountCasesS (L : LangCost) : List (ℕ × Block) → ℕ
  | [] => 0
  | cb :: cs =>
      allocBitCost + impliesEqualConstCost + synthCountBlock L cb.2 false +
        synthCountCasesS L cs

/-- Constraints of the default branch of a match, when present: the
allocated default boolean, one gated inequality per explicit case, and the
default block. -/
def synthCountDefault (L : LangCost) : Option Block → ℕ → ℕ
  | none, _ => 0
  | some blk, nCases =>
      allocBitCost + nCases * impliesUnequalConstCost + synthCountBlock L blk false

end

mutual

/-- The count computed by `Func::num_constraints` (`circuit.rs`, lines
1340-1496) for a block, excluding the global-constant contribution (which
the source accumulates in a separate `HashSet`; see `globalsNBlock`).
`nested` is the `is_nested` flag. -/
def numCountBlock : Block → Bool → ℕ
  | .mk ops ctrl, nested => numCountOps ops nested + numCountCtrl ctrl nested

/-- The `num_constraints` contribution of a sequence of ops. -/
def numCountOps : List Op → Bool → ℕ
  | [], _ => 0
  | op :: ops, nested => numCountOp op nested + numCountOps ops nested

/-- The `num_constraints` contribution of one op, mirroring each arm of the
`match op` in the source. -/
def numCountOp : Op → Bool → ℕ
  | .call _ _ body _, nested => numCountBlock body nested
  | .null .., _ => 0
  | .lit .., _ => 0
  | .cast .., _ => 0
  | .eqTag .., _ => 3
  | .eqVal .., _ => 3
  | .add .., _ => 1
  | .sub .., _ => 1
  | .mul .., _ => 1
  | .div .., _ => 5
  | .lt .., _ => 11
  | .trunc .., _ => 2
  | .divRem64 .., _ => 197
  | .not .., _ => 0
  | .emit _, _ => 0
  | .cproc .., _ => 0
  | .cons2 .., _ => 4
  | .cons3 .., _ => 6
  | .cons4 .., _ => 8
  | .and .., _ => 1
  | .or .., _ => 1
  | .decons2 .., _ => 1
  | .decons3 .., _ => 1
  | .decons4 .., _ => 1
  | .hide .., _ => 4
  | .openC .., _ => 2

/-- The `num_constraints` contribution of a control statement. -/
def numCountCtrl : Ctrl → Bool → ℕ
  | .ret vars, _ => 2 * vars.length
  | .ite _ tBlk fBlk, nested =>
      (if nested then 2 else 0) + numCountBlock tBlk true + numCountBlock fBlk true
  | .matchTag _ cases defBlk, _ =>
      2 * cases.length + 1 + numCountCasesT cases +
        numCountDefault defBlk cases.length
  | .matchSymbol _ cases defBlk, _ =>
      1 + (2 * cases.length + 1) + numCountCasesS cases +
        numCountDefault defBlk cases.length

/-- Sum of the `num_constraints` contributions of tag-match case blocks. -/
def numCountCasesT : List (Tag × Block) → ℕ
  | [] => 0
  | cb :: cs => numCountBlock cb.2 true + numCountCasesT cs

/-- Sum of the `num_constraints` contributions of symbol-match case
blocks. -/
def numCountCasesS : List (ℕ × Block) → ℕ
  | [] => 0
  | cb :: cs => numCountBlock cb.2 true + numCountCasesS cs

/-- The `num_constraints` contribution of a default branch: one boolean, the
inequalities against every explicit case, and the default block. -/
def numCountDefault : Option Block → ℕ → ℕ
  | none, _ => 0
  | some blk, nCases => 1 + nCases + numCountBlock blk true

end

mutual

/-- The set of constants allocated by `Block::alloc_globals` (`circuit.rs`,
lines 272-353).  The `GlobalAllocator` deduplicates by field value, so the
allocation is a set; `allocate_constant` emits one constraint per distinct
constant. -/
def globalsABlock {F : Type} [CommRing F] [DecidableEq F] (store : StoreModel F) :
    Block → Finset F
  | .mk ops ctrl => globalsAOps store ops ∪ globalsACtrl store ctrl

/-- Constants allocated by `alloc_globals` for a sequence of ops. -/
def globalsAOps {F : Type} [CommRing F] [DecidableEq F] (store : StoreModel F) :
    List Op → Finset F
  | [] => ∅
  | op :: ops => globalsAOp store op ∪ globalsAOps store ops

/-- Constants allocated by `alloc_globals` for one op, one arm per arm of
the source `match op`: `Cons2/3/4` and `Cast` allocate the image tag; `Lit`
the literal's z-pointer tag and value; `Null` the tag together with the
Lurk-Alpha shim hash for the four shimmed continuation tags and the field
zero otherwise; `Not`, `And`, `Or`, `Add`, `Sub`, `Mul`, `Lt`, `Trunc` and
`DivRem64` the `Num` tag; `Div` additionally the constant one; `Hide` and
`Open` the `Num` and `Comm` tags; everything else nothing. -/
def globalsAOp {F : Type} [CommRing F] [DecidableEq F] (store : StoreModel F) :
    Op → Finset F
  | .call _ _ body _ => globalsABlock store body
  | .cons2 _ tag _ => {tagField F tag}
  | .cons3 _ tag _ => {tagField F tag}
  | .cons4 _ tag _ => {tagField F tag}
  | .cast _ tag _ => {tagField F tag}
  | .lit _ l => {store.litTagF l, store.litValF l}
  | .null _ tag =>
      {tagField F tag} ∪ (if tag.isContShim then {store.hash8zeros} else {(0 : F)})
  | .not .. => {numTagF F}
  | .and .. => {numTagF F}
  | .or .. => {numTagF F}
  | .add .. => {numTagF F}
  | .sub .. => {numTagF F}
  | .mul .. => {numTagF F}
  | .lt .. => {numTagF F}
  | .trunc .. => {numTagF F}
  | .divRem64 .. => {numTagF F}
  | .div .. => {numTagF F, (1 : F)}
  | .hide .. => {numTagF F, commTagF F}
  | .openC .. => {numTagF F, commTagF F}
  | .cproc .. => ∅
  | .decons2 .. => ∅
  | .decons3 .. => ∅
  | .decons4 .. => ∅
  | .eqTag .. => ∅
  | .eqVal .. => ∅
  | .emit _ => ∅

/-- Constants allocated by `alloc_globals` for a control statement:
recursion into every branch, plus the `Sym` tag for a symbol match. -/
def globalsACtrl {F : Type} [CommRing F] [DecidableEq F] (store : StoreModel F) :
    Ctrl → Finset F
  | .ret _ => ∅
  | .ite _ tBlk fBlk => globalsABlock store tBlk ∪ globalsABlock store fBlk
  | .matchTag _ cases defBlk =>
      globalsACasesT store cases ∪ globalsAOpt store defBlk
  | .matchSymbol _ cases defBlk =>
      {symTagF F} ∪ globalsACasesS store cases ∪ globalsAOpt store defBlk

/-- Constants of tag-match case blocks, for `alloc_globals`. -/
def globalsACasesT {F : Type} [CommRing F] [DecidableEq F] (store : StoreModel F) :
    List (Tag × Block) → Finset F
  | [] => ∅
  | cb :: cs => globalsABlock store cb.2 ∪ globalsACasesT store cs

/-- Constants of symbol-match case blocks, for `alloc_globals`. -/
def globalsACasesS {F : Type} [CommRing F] [DecidableEq F] (store : StoreModel F) :
    List (ℕ × Block) → Finset F
  | [] => ∅
  | cb :: cs => globalsABlock store cb.2 ∪ globalsACasesS store cs

/-- Constants of an optional default block, for `alloc_globals`. -/
def globalsAOpt {F : Type} [CommRing F] [DecidableEq F] (store : StoreModel F) :
    Option Block → Finset F
  | none => ∅
  | some b => globalsABlock store b

end

mutual

/-- The set of constants recorded in the `globals` hash set by
`Func::num_constraints` (`circuit.rs`, lines 1341-1487) for a block. -/
def globalsNBlock {F : Type} [CommRing F] [DecidableEq F] (store : StoreModel F) :
    Block → Finset F
  | .mk ops ctrl => globalsNOps store ops ∪ globalsNCtrl store ctrl

/-- Constants recorded by `num_constraints` for a sequence of ops. -/
def globalsNOps {F : Type} [CommRing F] [DecidableEq F] (store : StoreModel F) :
    List Op → Finset F
  | [] => ∅
  | op :: ops => globalsNOp store op ∪ globalsNOps store ops

/-- Constants recorded by `num_constraints` for one op.  Unlike
`alloc_globals`, the arm `Op::Not(..) | Op::Emit(_) | Op::Cproc(..) => ()`
records nothing for `Not`, and the arm for `And`/`Or` only adds one
constraint without recording the `Num` tag. -/
def globalsNOp {F : Type} [CommRing F] [DecidableEq F] (store : StoreModel F) :
    Op → Finset F
  | .call _ _ body _ => globalsNBlock store body
  | .cons2 _ tag _ => {tagField F tag}
  | .cons3 _ tag _ => {tagField F tag}
  | .cons4 _ tag _ => {tagField F tag}
  | .cast _ tag _ => {tagField F tag}
  | .lit _ l => {store.litTagF l, store.litValF l}
  | .null _ tag =>
      {tagField F tag} ∪ (if tag.isContShim then {store.hash8zeros} else {(0 : F)})
  | .not .. => ∅
  | .and .. => ∅
  | .or .. => ∅
  | .add .. => {numTagF F}
  | .sub .. => {numTagF F}
  | .mul .. => {numTagF F}
  | .lt .. => {numTagF F}
  | .trunc .. => {numTagF F}
  | .divRem64 .. => {numTagF F}
  | .div .. => {numTagF F, (1 : F)}
  | .hide .. => {numTagF F, commTagF F}
  | .openC .. => {numTagF F, commTagF F}
  | .cproc .. => ∅
  | .decons2 .. => ∅
  | .decons3 .. => ∅
  | .decons4 .. => ∅
  | .eqTag .. => ∅
  | .eqVal .. => ∅
  | .emit _ => ∅

/-- Constants recorded by `num_constraints` for a control statement. -/
def globalsNCtrl {F : Type} [CommRing F] [DecidableEq F] (store : StoreModel F) :
    Ctrl → Finset F
  | .ret _ => ∅
  | .ite _ tBlk fBlk => globalsNBlock store tBlk ∪ globalsNBlock store fBlk
  | .matchTag _ cases defBlk =>
      globalsNCasesT store cases ∪ globalsNOpt store defBlk
  | .matchSymbol _ cases defBlk =>
      {symTagF F} ∪ globalsNCasesS store cases ∪ globalsNOpt store defBlk

/-- Constants of tag-match case blocks, for `num_constraints`. -/
def globalsNCasesT {F : Type} [CommRing F] [DecidableEq F] (store : StoreModel F) :
    List (Tag × Block) → Finset F
  | [] => ∅
  | cb :: cs => globalsNBlock store cb.2 ∪ globalsNCasesT store cs

/-- Constants of symbol-match case blocks, for `num_constraints`. -/
def globalsNCasesS {F : Type} [CommRing F] [DecidableEq F] (store : StoreModel F) :
    List (ℕ × Block) → Finset F
  | [] => ∅
  | cb :: cs => globalsNBlock store cb.2 ∪ globalsNCasesS store cs

/-- Constants of an optional default block, for `num_constraints`. -/
def globalsNOpt {F : Type} [CommRing F] [DecidableEq F] (store : StoreModel F) :
    Option Block → Finset F
  | none => ∅
  | some b => globalsNBlock store b

end

mutual

/-- Whether a block contains a boolean op (`Not`, `And`, `Or`), possibly
inside a nested call or branch. -/
def hasBoolOpBlock : Block → Bool
  | .mk ops ctrl => hasBoolOpOps ops || hasBoolOpCtrl ctrl

/-- Whether an op sequence contains a boolean op. -/
def hasBoolOpOps : List Op → Bool
  | [] => false
  | op :: ops => hasBoolOpOp op || hasBoolOpOps ops

/-- Whether one op is a boolean op or contains one in a callee body. -/
def hasBoolOpOp : Op → Bool
  | .not .. => true
  | .and .. => true
  | .or .. => true
  | .call _ _ body _ => hasBoolOpBlock body
  | _ => false

/-- Whether a control statement contains a boolean op in some branch. -/
def hasBoolOpCtrl : Ctrl → Bool
  | .ret _ => false
  | .ite _ tBlk fBlk => hasBoolOpBlock tBlk || hasBoolOpBlock fBlk
  | .matchTag _ cases defBlk => hasBoolOpCasesT cases || hasBoolOpOpt defBlk
  | .matchSymbol _ cases defBlk => hasBoolOpCasesS cases || hasBoolOpOpt defBlk

/-- Boolean-op search over tag-match cases. -/
def hasBoolOpCasesT : List (Tag × Block) → Bool
  | [] => false
  | cb :: cs => hasBoolOpBlock cb.2 || hasBoolOpCasesT cs

/-- Boolean-op search over symbol-match cases. -/
def hasBoolOpCasesS : List (ℕ × Block) → Bool
  | [] => false
  | cb :: cs => hasBoolOpBlock cb.2 || hasBoolOpCasesS cs

/-- Boolean-op search over an optional default block. -/
def hasBoolOpOpt : Option Block → Bool
  | none => false
  | some b => hasBoolOpBlock b

end

mutual

/-- Whether a block contains an op that makes `num_constraints` record the
`Num` tag constant (`Add`, `Sub`, `Mul`, `Div`, `Lt`, `Trunc`, `DivRem64`,
`Hide`, `Open`), possibly inside a nested call or branch. -/
def recordsNumBlock : Block → Bool
  | .mk ops ctrl => recordsNumOps ops || recordsNumCtrl ctrl

/-- Num-recording search over an op sequence. -/
def recordsNumOps : List Op → Bool
  | [] => false
  | op :: ops => recordsNumOp op || recordsNumOps ops

/-- Whether one op records the `Num` tag in `num_constraints`. -/
def recordsNumOp : Op → Bool
  | .add .. => true
  | .sub .. => true
  | .mul .. => true
  | .div .. => true
  | .lt .. => true
  | .trunc .. => true
  | .divRem64 .. => true
  | .hide .. => true
  | .openC .. => true
  | .call _ _ body _ => recordsNumBlock body
  | _ => false

/-- Num-recording search over a control statement. -/
def recordsNumCtrl : Ctrl → Bool
  | .ret _ => false
  | .ite _ tBlk fBlk => recordsNumBlock tBlk || recordsNumBlock fBlk
  | .matchTag _ cases defBlk => recordsNumCasesT cases || recordsNumOpt defBlk
  | .matchSymbol _ cases defBlk => recordsNumCasesS cases || recordsNumOpt defBlk

/-- Num-recording search over tag-match cases. -/
def recordsNumCasesT : List (Tag × Block) → Bool
  | [] => false
  | cb :: cs => recordsNumBlock cb.2 || recordsNumCasesT cs

/-- Num-recording search over symbol-match cases. -/
def recordsNumCasesS : List (ℕ × Block) → Bool
  | [] => false
  | cb :: cs => recordsNumBlock cb.2 || recordsNumCasesS cs

/-- Num-recording search over an optional default block. -/
def recordsNumOpt : Option Block → Bool
  | none => false
  | some b => recordsNumBlock b

end

mutual

/-- Whether every coprocessor invocation in a block resolves through the
lang to a coprocessor that declares no circuit. -/
def cprocsNoCircuitBlock (L : LangCost) : Block → Bool
  | .mk ops ctrl => cprocsNoCircuitOps L ops && cprocsNoCircuitCtrl L ctrl

/-- Coprocessor check over an op sequence. -/
def cprocsNoCircuitOps (L : LangCost) : List Op → Bool
  | [] => true
  | op :: ops => cprocsNoCircuitOp L op && cprocsNoCircuitOps L ops

/-- Coprocessor check for one op. -/
def cprocsNoCircuitOp (L : LangCost) : Op → Bool
  | .cproc _ sym _ =>
      match L sym with
      | some cp => !cp.hasCircuit
      | none => false
  | .call _ _ body _ => cprocsNoCircuitBlock L body
  | _ => true

/-- Coprocessor check over a control statement. -/
def cprocsNoCircuitCtrl (L : LangCost) : Ctrl → Bool
  | .ret _ => true
  | .ite _ tBlk fBlk => cprocsNoCircuitBlock L tBlk && cprocsNoCircuitBlock L fBlk
  | .matchTag _ cases defBlk =>
      cprocsNoCircuitCasesT L cases && cprocsNoCircuitOpt L defBlk
  | .matchSymbol _ cases defBlk =>
      cprocsNoCircuitCasesS L cases && cprocsNoCircuitOpt L defBlk

/-- Coprocessor check over tag-match cases. -/
def cprocsNoCircuitCasesT (L : LangCost) : List (Tag × Block) → Bool
  | [] => true
  | cb :: cs => cprocsNoCircuitBlock L cb.2 && cprocsNoCircuitCasesT L cs

/-- Coprocessor check over symbol-match cases. -/
def cprocsNoCircuitCasesS (L : LangCost) : List (ℕ × Block) → Bool
  | [] => true
  | cb :: cs => cprocsNoCircuitBlock L cb.2 && cprocsNoCircuitCasesS L cs

/-- Coprocessor check over an optional default block. -/
def cprocsNoCircuitOpt (L : LangCost) : Option Block → Bool
  | none => true
  | some b => cprocsNoCircuitBlock L b

end

mutual

theorem synthEqNumBlock (L : LangCost) (b : Block) (pc : Bool)
    (h : cprocsNoCircuitBlock L b = true) :
    synthCountBlock L b pc = numCountBlock b (!pc) := by
  match b with
  | .mk ops ctrl =>
    rw [cprocsNoCircuitBlock, Bool.and_eq_true] at h
    rw [synthCountBlock, numCountBlock, synthEqNumOps L ops pc h.1,
      synthEqNumCtrl L ctrl pc h.2]

theorem synthEqNumOps (L : LangCost) (ops : List Op) (pc : Bool)
    (h : cprocsNoCircuitOps L ops = true) :
    synthCountOps L ops pc = numCountOps ops (!pc) := by
  match ops with
  | [] => rfl
  | op :: rest =>
    rw [cprocsNoCircuitOps, Bool.and_eq_true] at h
    rw [synthCountOps, numCountOps, synthEqNumOp L op pc h.1,
      synthEqNumOps L rest pc h.2]

theorem synthEqNumOp (L : LangCost) (op : Op) (pc : Bool)
    (h : cprocsNoCircuitOp L op = true) :
    synthCountOp L op pc = numCountOp op (!pc) := by
  match op with
  | .cproc out sym inp =>
    rw [cprocsNoCircuitOp] at h
    rw [synthCountOp, numCountOp]
    cases hL : L sym with
    | none => simp [hL] at h
    | some cp =>
      rw [hL] at h
      rw [Bool.not_eq_true'] at h
      simp [h]
  | .call o p body i =>
    rw [cprocsNoCircuitOp] at h
    rw [synthCountOp, numCountOp, synthEqNumBlock L body pc h]
  | .cons2 .. => rfl
  | .cons3 .. => rfl
  | .cons4 .. => rfl
  | .decons2 .. => rfl
  | .decons3 .. => rfl
  | .decons4 .. => rfl
  | .null .. => rfl
  | .lit .. => rfl
  | .cast .. => rfl
  | .eqTag .. => rfl
  | .eqVal .. => rfl
  | .not .. => rfl
  | .and .. => rfl
  | .or .. => rfl
  | .add .. => rfl
  | .sub .. => rfl
  | .mul .. => rfl
  | .div .. => rfl
  | .lt .. => rfl
  | .trunc .. => rfl
  | .divRem64 .. => rfl
  | .emit _ => rfl
  | .hide .. => rfl
  | .openC .. => rfl

theorem synthEqNumCtrl (L : LangCost) (ct : Ctrl) (pc : Bool)
    (h : cprocsNoCircuitCtrl L ct = true) :
    synthCountCtrl L ct pc = numCountCtrl ct (!pc) := by
  match ct with
  | .ret vars =>
    rw [synthCountCtrl, numCountCtrl, impliesEqualCost]
    omega
  | .ite v tBlk fBlk =>
    rw [cprocsNoCircuitCtrl, Bool.and_eq_true] at h
    rw [synthCountCtrl, numCountCtrl,
      synthEqNumBlock L tBlk false h.1, synthEqNumBlock L fBlk false h.2,
      Bool.not_false]
    cases pc <;> simp [andGadgetCost]
  | .matchTag v cases defBlk =>
    rw [cprocsNoCircuitCtrl, Bool.and_eq_true] at h
    rw [synthCountCtrl, numCountCtrl, synthEqNumCasesT L cases h.1,
      synthEqNumDefault L defBlk cases.length h.2, selectorCost]
    omega
  | .matchSymbol v cases defBlk =>
    rw [cprocsNoCircuitCtrl, Bool.and_eq_true] at h
    rw [synthCountCtrl, numCountCtrl, synthEqNumCasesS L cases h.1,
      synthEqNumDefault L defBlk cases.length h.2, selectorCost, impliesEqualCost]
    omega

theorem synthEqNumCasesT (L : LangCost) (cs : List (Tag × Block))
    (h : cprocsNoCircuitCasesT L cs = true) :
    synthCountCasesT L cs = 2 * cs.length + numCountCasesT cs := by
  match cs with
  | [] => rfl
  | cb :: rest =>
    rw [cprocsNoCircuitCasesT, Bool.and_eq_true] at h
    rw [synthCountCasesT, numCountCasesT, synthEqNumBlock L cb.2 false h.1,
      synthEqNumCasesT L rest h.2, allocBitCost, impliesEqualConstCost,
      List.length_cons, Bool.not_false]
    omega

theorem synthEqNumCasesS (L : LangCost) (cs : List (ℕ × Block))
    (h : cprocsNoCircuitCasesS L cs = true) :
    synthCountCasesS L cs = 2 * cs.length + numCountCasesS cs := by
  match cs with
  | [] => rfl
  | cb :: rest =>
    rw [cprocsNoCircuitCasesS, Bool.and_eq_true] at h
    rw [synthCountCasesS, numCountCasesS, synthEqNumBlock L cb.2 false h.1,
      synthEqNumCasesS L rest h.2, allocBitCost, impliesEqualConstCost,
      List.length_cons, Bool.not_false]
    omega

theorem synthEqNumDefault (L : LangCost) (d : Option Block) (nCases : ℕ)
    (h : cprocsNoCircuitOpt L d = true) :
    synthCountDefault L d nCases = numCountDefault d nCases := by
  match d with
  | none => rfl
  | some blk =>
    rw [cprocsNoCircuitOpt] at h
    rw [synthCountDefault, numCountDefault, synthEqNumBlock L blk false h,
      allocBitCost, impliesUnequalConstCost, Bool.not_false]
    omega

end

/-- The extra constant that `alloc_globals` allocates beyond the
`num_constraints` set: the `Num` tag, exactly when a boolean op occurs. -/
def boolExtra {F : Type} [CommRing F] [DecidableEq F] (b : Bool) : Finset F :=
  if b then {numTagF F} else ∅

theorem boolExtra_or {F : Type} [CommRing F] [DecidableEq F] (b1 b2 : Bool) :
    (boolExtra (b1 || b2) : Finset F) = boolExtra b1 ∪ boolExtra b2 := by
  cases b1 <;> cases b2 <;> simp [boolExtra]

theorem finsetUnionFour {α : Type} [DecidableEq α] (a b c d : Finset α) :
    (a ∪ b) ∪ (c ∪ d) = (a ∪ c) ∪ (b ∪ d) := by
  ext x
  simp only [Finset.mem_union]
  tauto

mutual

theorem globalsAEqBlock {F : Type} [CommRing F] [DecidableEq F]
    (store : StoreModel F) (b : Block) :
    globalsABlock store b = globalsNBlock store b ∪ boolExtra (hasBoolOpBlock b) := by
  match b with
  | .mk ops ctrl =>
    rw [globalsABlock, globalsNBlock, hasBoolOpBlock, globalsAEqOps store ops,
      globalsAEqCtrl store ctrl, boolExtra_or, finsetUnionFour]

theorem globalsAEqOps {F : Type} [CommRing F] [DecidableEq F]
    (store : StoreModel F) (ops : List Op) :
    globalsAOps store ops = globalsNOps store ops ∪ boolExtra (hasBoolOpOps ops) := by
  match ops with
  | [] => simp [globalsAOps, globalsNOps, hasBoolOpOps, boolExtra]
  | op :: rest =>
    rw [globalsAOps, globalsNOps, hasBoolOpOps, globalsAEqOp store op,
      globalsAEqOps store rest, boolExtra_or, finsetUnionFour]

theorem globalsAEqOp {F : Type} [CommRing F] [DecidableEq F]
    (store : StoreModel F) (op : Op) :
    globalsAOp store op = globalsNOp store op ∪ boolExtra (hasBoolOpOp op) := by
  match op with
  | .call o p body i =>
    rw [globalsAOp, globalsNOp, hasBoolOpOp, globalsAEqBlock store body]
  | .cproc .. => simp [globalsAOp, globalsNOp, hasBoolOpOp, boolExtra]
  | .cons2 .. => simp [globalsAOp, globalsNOp, hasBoolOpOp, boolExtra]
  | .cons3 .. => simp [globalsAOp, globalsNOp, hasBoolOpOp, boolExtra]
  | .cons4 .. => simp [globalsAOp, globalsNOp, hasBoolOpOp, boolExtra]
  | .decons2 .. => simp [globalsAOp, globalsNOp, hasBoolOpOp, boolExtra]
  | .decons3 .. => simp [globalsAOp, globalsNOp, hasBoolOpOp, boolExtra]
  | .decons4 .. => simp [globalsAOp, globalsNOp, hasBoolOpOp, boolExtra]
  | .null .. => simp [globalsAOp, globalsNOp, hasBoolOpOp, boolExtra]
  | .lit .. => simp [globalsAOp, globalsNOp, hasBoolOpOp, boolExtra]
  | .cast .. => simp [globalsAOp, globalsNOp, hasBoolOpOp, boolExtra]
  | .eqTag .. => simp [globalsAOp, globalsNOp, hasBoolOpOp, boolExtra]
  | .eqVal .. => simp [globalsAOp, globalsNOp, hasBoolOpOp, boolExtra]
  | .not .. => simp [globalsAOp, globalsNOp, hasBoolOpOp, boolExtra]
  | .and .. => simp [globalsAOp, globalsNOp, hasBoolOpOp, boolExtra]
  | .or .. => simp [globalsAOp, globalsNOp, hasBoolOpOp, boolExtra]
  | .add .. => simp [globalsAOp, globalsNOp, hasBoolOpOp, boolExtra]
  | .sub .. => simp [globalsAOp, globalsNOp, hasBoolOpOp, boolExtra]
  | .mul .. => simp [globalsAOp, globalsNOp, hasBoolOpOp, boolExtra]
  | .div .. => simp [globalsAOp, globalsNOp, hasBoolOpOp, boolExtra]
  | .lt .. => simp [globalsAOp, globalsNOp, hasBoolOpOp, boolExtra]
  | .trunc .. => simp [globalsAOp, globalsNOp, hasBoolOpOp, boolExtra]
  | .divRem64 .. => simp [globalsAOp, globalsNOp, hasBoolOpOp, boolExtra]
  | .emit _ => simp [globalsAOp, globalsNOp, hasBoolOpOp, boolExtra]
  | .hide .. => simp [globalsAOp, globalsNOp, hasBoolOpOp, boolExtra]
  | .openC .. => simp [globalsAOp, globalsNOp, hasBoolOpOp, boolExtra]

theorem globalsAEqCtrl {F : Type} [CommRing F] [DecidableEq F]
    (store : StoreModel F) (ct : Ctrl) :
    globalsACtrl store ct = globalsNCtrl store ct ∪ boolExtra (hasBoolOpCtrl ct) := by
  match ct with
  | .ret vars => simp [globalsACtrl, globalsNCtrl, hasBoolOpCtrl, boolExtra]
  | .ite v tBlk fBlk =>
    rw [globalsACtrl, globalsNCtrl, hasBoolOpCtrl, globalsAEqBlock store tBlk,
      globalsAEqBlock store fBlk, boolExtra_or, finsetUnionFour]
  | .matchTag v cases defBlk =>
    rw [globalsACtrl, globalsNCtrl, hasBoolOpCtrl, globalsAEqCasesT store cases,
      globalsAEqOpt store defBlk, boolExtra_or, finsetUnionFour]
  | .matchSymbol v cases defBlk =>
    rw [globalsACtrl, globalsNCtrl, hasBoolOpCtrl, globalsAEqCasesS store cases,
      globalsAEqOpt store defBlk, boolExtra_or]
    ext x
    simp only [Finset.mem_union]
    tauto

theorem globalsAEqCasesT {F : Type} [CommRing F] [DecidableEq F]
    (store : StoreModel F) (cs : List (Tag × Block)) :
    globalsACasesT store cs =
      globalsNCasesT store cs ∪ boolExtra (hasBoolOpCasesT cs) := by
  match cs with
  | [] => simp [globalsACasesT, globalsNCasesT, hasBoolOpCasesT, boolExtra]
  | cb :: rest =>
    rw [globalsACasesT, globalsNCasesT, hasBoolOpCasesT,
      globalsAEqBlock store cb.2, globalsAEqCasesT store rest, boolExtra_or,
      finsetUnionFour]

theorem globalsAEqCasesS {F : Type} [CommRing F] [DecidableEq F]
    (store : StoreModel F) (cs : List (ℕ × Block)) :
    globalsACasesS store cs =
      globalsNCasesS store cs ∪ boolExtra (hasBoolOpCasesS cs) := by
  match cs with
  | [] => simp [globalsACasesS, globalsNCasesS, hasBoolOpCasesS, boolExtra]
  | cb :: rest =>
    rw [globalsACasesS, globalsNCasesS, hasBoolOpCasesS,
      globalsAEqBlock store cb.2, globalsAEqCasesS store rest, boolExtra_or,
      finsetUnionFour]

theorem globalsAEqOpt {F : Type} [CommRing F] [DecidableEq F]
    (store : StoreModel F) (d : Option Block) :
    globalsAOpt store d = globalsNOpt store d ∪ boolExtra (hasBoolOpOpt d) := by
  match d with
  | none => simp [globalsAOpt, globalsNOpt, hasBoolOpOpt, boolExtra]
  | some b =>
    rw [globalsAOpt, globalsNOpt, hasBoolOpOpt, globalsAEqBlock store b]

end

mutual

theorem recordsNumMemBlock {F : Type} [CommRing F] [DecidableEq F]
    (store : StoreModel F) (b : Block) (h : recordsNumBlock b = true) :
    numTagF F ∈ globalsNBlock store b := by
  match b with
  | .mk ops ctrl =>
    rw [recordsNumBlock, Bool.or_eq_true] at h
    rw [globalsNBlock, Finset.mem_union]
    cases h with
    | inl h => exact Or.inl (recordsNumMemOps store ops h)
    | inr h => exact Or.inr (recordsNumMemCtrl store ctrl h)

theorem recordsNumMemOps {F : Type} [CommRing F] [DecidableEq F]
    (store : StoreModel F) (ops : List Op) (h : recordsNumOps ops = true) :
    numTagF F ∈ globalsNOps store ops := by
  match ops with
  | [] => simp [recordsNumOps] at h
  | op :: rest =>
    rw [recordsNumOps, Bool.or_eq_true] at h
    rw [globalsNOps, Finset.mem_union]
    cases h with
    | inl h => exact Or.inl (recordsNumMemOp store op h)
    | inr h => exact Or.inr (recordsNumMemOps store rest h)

theorem recordsNumMemOp {F : Type} [CommRing F] [DecidableEq F]
    (store : StoreModel F) (op : Op) (h : recordsNumOp op = true) :
    numTagF F ∈ globalsNOp store op := by
  match op with
  | .call o p body i =>
    rw [recordsNumOp] at h
    rw [globalsNOp]
    exact recordsNumMemBlock store body h
  | .add .. => simp [globalsNOp]
  | .sub .. => simp [globalsNOp]
  | .mul .. => simp [globalsNOp]
  | .div .. => simp [globalsNOp]
  | .lt .. => simp [globalsNOp]
  | .trunc .. => simp [globalsNOp]
  | .divRem64 .. => simp [globalsNOp]
  | .hide .. => simp [globalsNOp]
  | .openC .. => simp [globalsNOp]
  | .cproc .. => simp [recordsNumOp] at h
  | .cons2 .. => simp [recordsNumOp] at h
  | .cons3 .. => simp [recordsNumOp] at h
  | .cons4 .. => simp [recordsNumOp] at h
  | .decons2 .. => simp [recordsNumOp] at h
  | .decons3 .. => simp [recordsNumOp] at h
  | .decons4 .. => simp [recordsNumOp] at h
  | .null .. => simp [recordsNumOp] at h
  | .lit .. => simp [recordsNumOp] at h
  | .cast .. => simp [recordsNumOp] at h
  | .eqTag .. => simp [recordsNumOp] at h
  | .eqVal .. => simp [recordsNumOp] at h
  | .not .. => simp [recordsNumOp] at h
  | .and .. => simp [recordsNumOp] at h
  | .or .. => simp [recordsNumOp] at h
  | .emit _ => simp [recordsNumOp] at h

theorem recordsNumMemCtrl {F : Type} [CommRing F] [DecidableEq F]
    (store : StoreModel F) (ct : Ctrl) (h : recordsNumCtrl ct = true) :
    numTagF F ∈ globalsNCtrl store ct := by
  match ct with
  | .ret vars => simp [recordsNumCtrl] at h
  | .ite v tBlk fBlk =>
    rw [recordsNumCtrl, Bool.or_eq_true] at h
    rw [globalsNCtrl, Finset.mem_union]
    cases h with
    | inl h => exact Or.inl (recordsNumMemBlock store tBlk h)
    | inr h => exact Or.inr (recordsNumMemBlock store fBlk h)
  | .matchTag v cases defBlk =>
    rw [recordsNumCtrl, Bool.or_eq_true] at h
    rw [globalsNCtrl, Finset.mem_union]
    cases h with
    | inl h => exact Or.inl (recordsNumMemCasesT store cases h)
    | inr h => exact Or.inr (recordsNumMemOpt store defBlk h)
  | .matchSymbol v cases defBlk =>
    rw [recordsNumCtrl, Bool.or_eq_true] at h
    rw [globalsNCtrl, Finset.union_assoc, Finset.mem_union, Finset.mem_union]
    cases h with
    | inl h => exact Or.inr (Or.inl (recordsNumMemCasesS store cases h))
    | inr h => exact Or.inr (Or.inr (recordsNumMemOpt store defBlk h))

theorem recordsNumMemCasesT {F : Type} [CommRing F] [DecidableEq F]
    (store : StoreModel F) (cs : List (Tag × Block))
    (h : recordsNumCasesT cs = true) :
    numTagF F ∈ globalsNCasesT store cs := by
  match cs with
  | [] => simp [recordsNumCasesT] at h
  | cb :: rest =>
    rw [recordsNumCasesT, Bool.or_eq_true] at h
    rw [globalsNCasesT, Finset.mem_union]
    cases h with
    | inl h => exact Or.inl (recordsNumMemBlock store cb.2 h)
    | inr h => exact Or.inr (recordsNumMemCasesT store rest h)

theorem recordsNumMemCasesS {F : Type} [CommRing F] [DecidableEq F]
    (store : StoreModel F) (cs : List (ℕ × Block))
    (h : recordsNumCasesS cs = true) :
    numTagF F ∈ globalsNCasesS store cs := by
  match cs with
  | [] => simp [recordsNumCasesS] at h
  | cb :: rest =>
    rw [recordsNumCasesS, Bool.or_eq_true] at h
    rw [globalsNCasesS, Finset.mem_union]
    cases h with
    | inl h => exact Or.inl (recordsNumMemBlock store cb.2 h)
    | inr h => exact Or.inr (recordsNumMemCasesS store rest h)

theorem recordsNumMemOpt {F : Type} [CommRing F] [DecidableEq F]
    (store : StoreModel F) (d : Option Block) (h : recordsNumOpt d = true) :
    numTagF F ∈ globalsNOpt store d := by
  match d with
  | none => simp [recordsNumOpt] at h
  | some b =>
    rw [recordsNumOpt] at h
    rw [globalsNOpt]
    exact recordsNumMemBlock store b h

end

/-- When every boolean op is accompanied by an op that records the `Num`
tag, the two global-constant sets coincide (and in particular have the same
cardinality, i.e. `alloc_globals` emits as many constraints as
`num_constraints` accounts for). -/
theorem globalsA_card_eq {F : Type} [CommRing F] [DecidableEq F]
    (store : StoreModel F) (b : Block)
    (h : hasBoolOpBlock b = true → recordsNumBlock b = true) :
    globalsABlock store b = globalsNBlock store b := by
  rw [globalsAEqBlock store b]
  cases hb : hasBoolOpBlock b with
  | false => simp [boolExtra]
  | true =>
    have hmem := recordsNumMemBlock store b (h hb)
    rw [boolExtra, if_pos rfl]
    exact Finset.union_eq_left.mpr (Finset.singleton_subset_iff.mpr hmem)

/-- The hints recorded by the interpreter in a frame (`Hints` in
`interpreter.rs`, not among the provided sources; the fields `hash4`,
`hash6`, `hash8`, `commitment`, `bit_decomp`, `call_outputs` and
`cproc_outputs` are read by `synthesize_frame`). -/
structure Hints (F : Type) where
  hash4 : List (Option (SlotData F))
  hash6 : List (Option (SlotData F))
  hash8 : List (Option (SlotData F))
  commitment : List (Option (SlotData F))
  bitDecomp : List (Option (SlotData F))
  callOutputs : List (List ℕ)
  cprocOutputs : List (List ℕ)

/-- A frame: concrete input and output pointers (opaque store indices),
hints, and the blank flag. -/
structure Frame (F : Type) where
  input : List ℕ
  output : List ℕ
  hints : Hints F
  blank : Bool

theorem allocateSlots_length {F : Type} [Zero F] (store : StoreModel F)
    (slotsData : List (Option (SlotData F))) (typ : SlotType) (numSlots : ℕ)
    (rs : List (List F × AllocVal F))
    (hok : allocateSlots store slotsData typ numSlots = .ok rs) :
    rs.length = numSlots := by
  rw [allocateSlots] at hok
  by_cases h : slotsData.length = numSlots
  · rw [if_pos h] at hok
    rw [(allocateSlotsGo_ok store typ slotsData rs hok).1, h]
  · rw [if_neg h] at hok
    exact absurd hok (by simp)

/-- The total number of constraints created by `synthesize_frame_aux`
(`circuit.rs`, lines 1323-1335): `alloc_globals` emits one constraint per
distinct global constant, `allocate_input` only allocates, and
`synthesize_frame` allocates the outputs (no constraints), allocates every
slot up to the static count (`slotTypeCost` constraints each, after the
length assertion of `allocate_slots`), and then walks the body with the
constant-true premise. -/
def synthAuxCount {F : Type} [CommRing F] [DecidableEq F] (store : StoreModel F)
    (L : LangCost) (f : Func) (fr : Frame F) : Except String ℕ :=
  if f.outputSize = fr.output.length then do
    let s4 ← allocateSlots store fr.hints.hash4 .hash4 f.slot.hash4
    let s6 ← allocateSlots store fr.hints.hash6 .hash6 f.slot.hash6
    let s8 ← allocateSlots store fr.hints.hash8 .hash8 f.slot.hash8
    let sc ← allocateSlots store fr.hints.commitment .commitment f.slot.commitment
    let sb ← allocateSlots store fr.hints.bitDecomp .bitDecomp f.slot.bitDecomp
    .ok ((globalsABlock store f.body).card
      + s4.length * slotTypeCost .hash4
      + s6.length * slotTypeCost .hash6
      + s8.length * slotTypeCost .hash8
      + sc.length * slotTypeCost .commitment
      + sb.length * slotTypeCost .bitDecomp
      + synthCountBlock L f.body true)
  else .error "output size mismatch"

/-- The fixed per-slot cost term of `Func::num_constraints` (`circuit.rs`,
lines 1489-1493). -/
def slotConstraintCost (s : SlotsCounter) : ℕ :=
  289 * s.hash4 + 337 * s.hash6 + 388 * s.hash8 + 265 * s.commitment +
    388 * s.bitDecomp

/-- Models `Func::num_constraints` (`circuit.rs`, lines 1340-1496): the fixed cost
of every slot, the recursive op/ctrl count starting un-nested, and one
constraint per recorded global constant. -/
def numConstraints {F : Type} [CommRing F] [DecidableEq F]
    (store : StoreModel F) (f : Func) : ℕ :=
  slotConstraintCost f.slot + numCountBlock f.body false +
    (globalsNBlock store f.body).card

/-- Claim C1 (amended): for every Func whose coprocessor invocations all
resolve to coprocessors without a circuit, and in which any boolean op
(`Not`/`And`/`Or`) is accompanied by an op that records the `Num` tag
constant, the number of constraints emitted by synthesis is the same for
every Frame the synthesizer accepts — the successful count `n` is
determined by the Func alone — and equals the value computed statically by
`Func::num_constraints` from the slot counts and the op/ctrl structure. -/
theorem c1_amended_constraint_count {F : Type} [CommRing F] [DecidableEq F]
    (store : StoreModel F) (L : LangCost) (f : Func) (fr : Frame F) (n : ℕ)
    (hc : cprocsNoCircuitBlock L f.body = true)
    (hb : hasBoolOpBlock f.body = true → recordsNumBlock f.body = true)
    (hok : synthAuxCount store L f fr = .ok n) :
    n = numConstraints store f := by
  rw [synthAuxCount] at hok
  by_cases hout : f.outputSize = fr.output.length
  · rw [if_pos hout] at hok
    cases h4 : allocateSlots store fr.hints.hash4 .hash4 f.slot.hash4 with
    | error e => rw [h4] at hok; exact absurd hok (by simp [Bind.bind, Except.bind])
    | ok s4 =>
    rw [h4] at hok
    cases h6 : allocateSlots store fr.hints.hash6 .hash6 f.slot.hash6 with
    | error e => rw [h6] at hok; exact absurd hok (by simp [Bind.bind, Except.bind])
    | ok s6 =>
    rw [h6] at hok
    cases h8 : allocateSlots store fr.hints.hash8 .hash8 f.slot.hash8 with
    | error e => rw [h8] at hok; exact absurd hok (by simp [Bind.bind, Except.bind])
    | ok s8 =>
    rw [h8] at hok
    cases hcm : allocateSlots store fr.hints.commitment .commitment f.slot.commitment with
    | error e => rw [hcm] at hok; exact absurd hok (by simp [Bind.bind, Except.bind])
    | ok sc =>
    rw [hcm] at hok
    cases hbd : allocateSlots store fr.hints.bitDecomp .bitDecomp f.slot.bitDecomp with
    | error e => rw [hbd] at hok; exact absurd hok (by simp [Bind.bind, Except.bind])
    | ok sb =>
    rw [hbd] at hok
    simp only [Bind.bind, Except.bind, Except.ok.injEq] at hok
    rw [allocateSlots_length store _ _ _ _ h4, allocateSlots_length store _ _ _ _ h6,
      allocateSlots_length store _ _ _ _ h8, allocateSlots_length store _ _ _ _ hcm,
      allocateSlots_length store _ _ _ _ hbd, globalsA_card_eq store f.body hb,
      synthEqNumBlock L f.body true hc, Bool.not_true] at hok
    rw [← hok, numConstraints, slotConstraintCost, slotTypeCost, slotTypeCost,
      slotTypeCost, slotTypeCost, slotTypeCost]
    omega
  · rw [if_neg hout] at hok
    exact absurd hok (by simp)

/-- The empty lang used by concrete instances. -/
def exLang : LangCost := fun _ => none

/-- Empty hints for concrete frames. -/
def exHints : Hints ℤ := ⟨[], [], [], [], [], [], []⟩

/-- The body of the C1 counterexample Func: a tag-equality test followed by
a boolean negation, then a return. -/
def c1CexBlock : Block :=
  .mk [.eqTag "b" "x" "y", .not "c" "b"] (.ret ["x"])

/-- The C1 counterexample Func. -/
def c1CexFunc : Func := ⟨["x", "y"], 1, SlotsCounter.zero, c1CexBlock⟩

/-- A concrete frame for the C1 counterexample Func. -/
def c1CexFrame : Frame ℤ := ⟨[0, 0], [0], exHints, false⟩

/-- Counterexample to claim C1 as stated: for the Func
`{ b = eq_tag(x, y); c = !b; return (x) }`, synthesis emits 6 constraints
(`alloc_globals` allocates the `Num` tag constant for `Op::Not`, then
`alloc_equal` emits 3, `Op::Not` 0 and the return 2), while
`Func::num_constraints` predicts 5 — its `Op::Not(..) | Op::Emit(_) |
Op::Cproc(..) => ()` arm records no global constant for `Not`. -/
theorem c1_counterexample :
    synthAuxCount exStore exLang c1CexFunc c1CexFrame = .ok 6 ∧
      numConstraints exStore c1CexFunc = 5 := by
  constructor
  · rfl
  · rfl

/-- The body of the C1 witness Func: one field addition, then a return. -/
def c1WitBlock : Block := .mk [.add "c" "x" "y"] (.ret ["c"])

/-- The C1 witness Func. -/
def c1WitFunc : Func := ⟨["x", "y"], 1, SlotsCounter.zero, c1WitBlock⟩

/-- A concrete frame for the C1 witness Func. -/
def c1WitFrame : Frame ℤ := ⟨[0, 0], [0], exHints, false⟩

/-- Witness for the amended C1 at a concrete input: the Func
`{ c = add(x, y); return (c) }` synthesizes to 4 constraints and
`num_constraints` also computes 4. -/
theorem c1_amended_witness : (4 : ℕ) = numConstraints exStore c1WitFunc :=
  c1_amended_constraint_count exStore exLang c1WitFunc c1WitFrame 4
    (by decide) (fun h => absurd h (by decide)) (by rfl)

/-- Modelled from the spec: the booleanity constraint of an allocated bit
(`AllocatedBit::alloc`): `b · (1 − b) = 0`. -/
def booleanity {F : Type} [CommRing F] (b : F) : Prop := b * (1 - b) = 0

/-- Modelled from the spec: the single constraint of `implies_equal` /
`implies_equal_const` over witness values — `premise · (a − b) = 0`
(`circuit/gadgets/constraints.rs` is not among the provided sources). -/
def impliesEqualSem {F : Type} [CommRing F] (p a b : F) : Prop := p * (a - b) = 0

/-- Modelled from the spec: the constraint of `implies_unequal_const` over
witness values — an auxiliary witness `q` with `(a − c) · q = premise`, so a
true premise forces `a ≠ c` while a false premise is satisfied by `q = 0`. -/
def impliesUnequalConstSem {F : Type} [CommRing F] (p a c q : F) : Prop :=
  (a - c) * q = p

/-- Modelled from the spec: the constraint of
`enforce_selector_with_premise` — `premise · (Σ selector − 1) = 0`. -/
def selectorSem {F : Type} [CommRing F] (nd : F) (sel : List F) : Prop :=
  nd * (sel.sum - 1) = 0

/-- The per-case constraints emitted by `synthesize_match` (`circuit.rs`,
lines 1105-1142): one allocated boolean per case (with its booleanity
constraint) and, gated by that boolean, an equality between the matched
value and the case constant. -/
def matchCaseConstraints {F : Type} [CommRing F] (matched : F)
    (consts bits : List F) : Prop :=
  bits.length = consts.length ∧
  ∀ i, i < consts.length →
    booleanity (bits.getD i 0) ∧
    impliesEqualSem (bits.getD i 0) matched (consts.getD i 0)

/-- The default-branch constraints of `synthesize_match` (`circuit.rs`,
lines 1144-1181): the allocated default boolean and, gated by it, one
inequality against every explicit case constant. -/
def matchDefaultConstraints {F : Type} [CommRing F] (matched : F)
    (consts : List F) (d : F) (qs : List F) : Prop :=
  booleanity d ∧ qs.length = consts.length ∧
  ∀ i, i < consts.length →
    impliesUnequalConstSem d matched (consts.getD i 0) (qs.getD i 0)

/-- The default boolean as a (zero- or one-element) selector suffix. -/
def defaultBitList {F : Type} : Option (F × List F) → List F
  | none => []
  | some dq => [dq.1]

/-- The full selector vector: the case booleans followed by the default
boolean when a default exists. -/
def matchSelector {F : Type} (bits : List F) (defQ : Option (F × List F)) :
    List F :=
  bits ++ defaultBitList defQ

/-- All constraints emitted by `synthesize_match` for one match control,
over an arbitrary witness assignment: the per-case constraints, the default
constraints when a default exists (`defQ` holds the default boolean and the
inequality witnesses), and the premise-gated selector constraint over the
sum of all the booleans. -/
def matchSynthConstraints {F : Type} [CommRing F] (nd matched : F)
    (consts bits : List F) (defQ : Option (F × List F)) : Prop :=
  matchCaseConstraints matched consts bits ∧
  (∀ d qs, defQ = some (d, qs) → matchDefaultConstraints matched consts d qs) ∧
  selectorSem nd (matchSelector bits defQ)

theorem getD_replicate_zero {F : Type} [Zero F] (n i : ℕ) :
    (List.replicate n (0 : F)).getD i 0 = 0 := by
  by_cases h : i < n
  · rw [List.getD_eq_getElem _ _ (by simpa using h), List.getElem_replicate]
  · rw [List.getD_eq_default _ _ (by simpa using h)]

theorem booleanity_cases {F : Type} [Field F] {b : F} (h : booleanity b) :
    b = 0 ∨ b = 1 := by
  rw [booleanity, mul_eq_zero] at h
  cases h with
  | inl h => exact Or.inl h
  | inr h => exact Or.inr (by linear_combination -h)

theorem sum_of_bool_list {F : Type} [Field F] [DecidableEq F] (l : List F)
    (h : ∀ x ∈ l, x = 0 ∨ x = 1) : l.sum = (l.count 1 : ℕ) := by
  induction l with
  | nil => simp
  | cons hd tl ih =>
    rw [List.sum_cons, List.count_cons, ih (fun x hx => h x (List.mem_cons_of_mem hd hx))]
    cases h hd (List.mem_cons_self hd tl) with
    | inl h0 =>
      subst h0
      have : ((0 : F) == 1) = false := by
        simp
      simp [this]
    | inr h1 =>
      subst h1
      simp [add_comm]

/-- Claim C3: for every synthesized MatchTag or MatchSymbol control, one
boolean is allocated per explicit case plus one for the default case when
present; any witness satisfying the emitted constraints has: each case
boolean, if true, forcing the matched value to equal that case's constant;
the default boolean, if true, forcing inequality against every explicit
case constant; and, when the not-dummy premise is true, the selector sum
equal to one with every selector entry boolean — hence exactly one selector
boolean live.  When the premise is false the constraints are satisfiable
for an arbitrary matched value by the all-zero assignment. -/
theorem c3_match_selector {F : Type} [Field F] [DecidableEq F]
    (nd matched : F) (consts bits : List F) (defQ : Option (F × List F))
    (h : matchSynthConstraints nd matched consts bits defQ)
    (hchar : ∀ m : ℕ, m ≤ bits.length + 1 → ((m : F) = 1) → m = 1) :
    (∀ i, i < consts.length → bits.getD i 0 = 1 → matched = consts.getD i 0) ∧
    (∀ d qs, defQ = some (d, qs) → d = 1 →
      ∀ i, i < consts.length → matched ≠ consts.getD i 0) ∧
    (nd = 1 →
      (matchSelector bits defQ).sum = 1 ∧
      (∀ x ∈ matchSelector bits defQ, x = 0 ∨ x = 1) ∧
      (matchSelector bits defQ).count 1 = 1) ∧
    (∀ m : F, matchSynthConstraints 0 m consts
      (List.replicate consts.length 0)
      (defQ.map fun _ => ((0 : F), List.replicate consts.length (0 : F)))) := by
  obtain ⟨⟨hlen, hcase⟩, hdef, hsel⟩ := h
  have hboolAll : ∀ x ∈ matchSelector bits defQ, x = 0 ∨ x = 1 := by
    intro x hx
    rw [matchSelector, List.mem_append] at hx
    cases hx with
    | inl hx =>
      obtain ⟨i, hi, hgi⟩ := List.mem_iff_getElem.mp hx
      have hic : i < consts.length := by omega
      have := (hcase i hic).1
      rw [List.getD_eq_getElem _ _ (by omega)] at this
      rw [← hgi]
      exact booleanity_cases this
    | inr hx =>
      cases hdq : defQ with
      | none => rw [hdq, defaultBitList] at hx; simp at hx
      | some dq =>
        rw [hdq, defaultBitList] at hx
        simp only [List.mem_singleton] at hx
        subst hx
        exact booleanity_cases (hdef dq.1 dq.2 (by rw [hdq]) |>.1)
  refine ⟨?_, ?_, ?_, ?_⟩
  · intro i hi hb
    have := (hcase i hi).2
    rw [impliesEqualSem, hb, one_mul, sub_eq_zero] at this
    exact this
  · intro d qs hdq hd i hi heq
    have := (hdef d qs hdq).2.2 i hi
    rw [impliesUnequalConstSem, heq, sub_self, zero_mul, hd] at this
    exact zero_ne_one this
  · intro hnd
    rw [selectorSem, hnd, one_mul, sub_eq_zero] at hsel
    refine ⟨hsel, hboolAll, ?_⟩
    have hsum := sum_of_bool_list (matchSelector bits defQ) hboolAll
    rw [hsel] at hsum
    have hle : (matchSelector bits defQ).count 1 ≤ bits.length + 1 := by
      have hcl := List.count_le_length (1 : F) (matchSelector bits defQ)
      have hml : (matchSelector bits defQ).length ≤ bits.length + 1 := by
        rw [matchSelector, List.length_append]
        cases defQ <;> simp [defaultBitList]
      omega
    exact hchar _ hle hsum.symm
  · intro m
    refine ⟨⟨by simp, ?_⟩, ?_, ?_⟩
    · intro i hi
      rw [getD_replicate_zero]
      exact ⟨by rw [booleanity, zero_mul], by rw [impliesEqualSem, zero_mul]⟩
    · intro d qs hdq
      cases hq : defQ with
      | none =>
        rw [hq, Option.map_none'] at hdq
        exact absurd hdq (by simp)
      | some dq =>
        rw [hq] at hdq
        rw [Option.map_some'] at hdq
        simp only [Option.some.injEq, Prod.mk.injEq] at hdq
        obtain ⟨hd, hqs⟩ := hdq
        subst hd; subst hqs
        refine ⟨by rw [booleanity, zero_mul], by simp, ?_⟩
        intro i hi
        rw [impliesUnequalConstSem, getD_replicate_zero, mul_zero]
    · rw [selectorSem, zero_mul]

/-- Witness for C3 at a concrete instance over the rationals: one case with
constant 2, no default, matched value 2, case boolean 1, premise true. -/
theorem c3_match_selector_witness :
    (∀ i, i < [(2 : ℚ)].length → [(1 : ℚ)].getD i 0 = 1 →
      (2 : ℚ) = [(2 : ℚ)].getD i 0) ∧
    (∀ d qs, (none : Option (ℚ × List ℚ)) = some (d, qs) → d = 1 →
      ∀ i, i < [(2 : ℚ)].length → (2 : ℚ) ≠ [(2 : ℚ)].getD i 0) ∧
    ((1 : ℚ) = 1 →
      (matchSelector [(1 : ℚ)] none).sum = 1 ∧
      (∀ x ∈ matchSelector [(1 : ℚ)] none, x = 0 ∨ x = 1) ∧
      (matchSelector [(1 : ℚ)] none).count 1 = 1) ∧
    (∀ m : ℚ, matchSynthConstraints 0 m [(2 : ℚ)]
      (List.replicate [(2 : ℚ)].length 0)
      ((none : Option (ℚ × List ℚ)).map fun _ =>
        ((0 : ℚ), List.replicate [(2 : ℚ)].length (0 : ℚ)))) :=
  c3_match_selector 1 2 [(2 : ℚ)] [(1 : ℚ)] none
    (by
      refine ⟨⟨rfl, ?_⟩, ?_, ?_⟩
      · intro i hi
        simp only [List.length_singleton] at hi
        have hi0 : i = 0 := by omega
        subst hi0
        exact ⟨by norm_num [booleanity], by norm_num [impliesEqualSem]⟩
      · intro d qs hdq
        exact absurd hdq (by simp)
      · norm_num [selectorSem, matchSelector, defaultBitList])
    (by
      intro m hm h1
      exact_mod_cast h1)

/-- The constraints emitted for a `Ctrl::MatchSymbol` (`circuit.rs`, lines
1255-1289): the case selection of `synthesize_match` runs over the matched
pointer's content hash against the interned symbols' hashes, and afterwards
an `implies_equal` gated by the enclosing not-dummy premise enforces the
matched pointer's tag against the `Sym` tag constant. -/
def matchSymbolConstraints {F : Type} [CommRing F] (store : StoreModel F)
    (nd ptrTag ptrHash : F) (symCases : List ℕ) (bits : List F)
    (defQ : Option (F × List F)) : Prop :=
  matchSynthConstraints nd ptrHash (symCases.map store.symHash) bits defQ ∧
  impliesEqualSem nd ptrTag (symTagF F)

/-- Claim C9: every synthesized MatchSymbol additionally emits, under the
enclosing not-dummy premise, an equality constraint between the matched
variable's tag and the Sym tag constant, beyond the case selection over
content hashes; so on any concrete path (premise true) a witness satisfying
the constraints must give the matched pointer the Sym tag. -/
theorem c9_match_symbol_tag {F : Type} [Field F] (store : StoreModel F)
    (nd ptrTag ptrHash : F) (symCases : List ℕ) (bits : List F)
    (defQ : Option (F × List F))
    (h : matchSymbolConstraints store nd ptrTag ptrHash symCases bits defQ)
    (hnd : nd = 1) :
    ptrTag = symTagF F := by
  have := h.2
  rw [impliesEqualSem, hnd, one_mul, sub_eq_zero] at this
  exact this

/-- A trivial store over the rationals used by witnesses. -/
def qStore : StoreModel ℚ where
  hashPtr := fun _ => ⟨0, 0⟩
  litTagF := fun _ => 0
  litValF := fun _ => 0
  symHash := fun _ => 0
  hash8zeros := 7
  h4 := List.sum
  h6 := List.sum
  h8 := List.sum
  h3 := List.sum
  toBitsLE := fun _ => []

/-- Witness for C9 at a concrete instance over the rationals: one symbol
case whose hash matches, case boolean 1, premise true, and the matched
pointer carrying the Sym tag. -/
theorem c9_match_symbol_tag_witness : (symTagF ℚ : ℚ) = symTagF ℚ :=
  c9_match_symbol_tag qStore 1 (symTagF ℚ) 0 [5] [1] none
    (by
      refine ⟨⟨⟨by simp [qStore], ?_⟩, ?_, ?_⟩, ?_⟩
      · intro i hi
        simp only [List.length_map, List.length_singleton] at hi
        have hi0 : i = 0 := by omega
        subst hi0
        exact ⟨by norm_num [booleanity],
               by norm_num [impliesEqualSem, qStore]⟩
      · intro d qs hdq
        exact absurd hdq (by simp)
      · norm_num [selectorSem, matchSelector, defaultBitList]
      · norm_num [impliesEqualSem])
    rfl

/-- The divisor substitution of `Op::Div` synthesis (`circuit.rs`, lines
841-864): `alloc_is_zero` tests the divisor value and `pick` substitutes
the constant one for a zero divisor. -/
def divDivisor {F : Type} [Field F] [DecidableEq F] (b : F) : F :=
  if b = 0 then 1 else b

/-- The result pointer bound by `Op::Div` synthesis: the `Num` tag together
with the quotient witness `div(a, divisor)`. -/
def synthDivResult {F : Type} [Field F] [DecidableEq F] (a b : F) : F × F :=
  (numTagF F, a * (divDivisor b)⁻¹)

/-- Claim C7: in the constraints emitted for field division, when the
divisor value is zero the constant 1 is substituted as the divisor of the
division gadget — the effective divisor is never zero, so the quotient
witness is defined for every input including a zero divisor hint, and it
satisfies the division gadget's product relation; the result is bound as a
Num-tagged pointer. -/
theorem c7_div_zero_divisor_substitution {F : Type} [Field F] [DecidableEq F]
    (a b : F) :
    divDivisor b ≠ 0 ∧
    (b = 0 → divDivisor b = 1) ∧
    (b ≠ 0 → divDivisor b = b) ∧
    (synthDivResult a b).1 = numTagF F ∧
    (synthDivResult a b).2 * divDivisor b = a := by
  by_cases hb : b = 0
  · refine ⟨?_, fun _ => ?_, fun hnb => absurd hb hnb, rfl, ?_⟩
    · rw [divDivisor, if_pos hb]
      exact one_ne_zero
    · rw [divDivisor, if_pos hb]
    · rw [synthDivResult, divDivisor, if_pos hb]
      simp
  · refine ⟨?_, fun h0 => absurd h0 hb, fun _ => ?_, rfl, ?_⟩
    · rw [divDivisor, if_neg hb]
      exact hb
    · rw [divDivisor, if_neg hb]
    · rw [synthDivResult, divDivisor, if_neg hb, mul_assoc,
        inv_mul_cancel₀ hb, mul_one]

/-- Witness for C7 at the concrete input `a = 3`, `b = 0` over the
rationals. -/
theorem c7_div_zero_divisor_substitution_witness :
    divDivisor (0 : ℚ) ≠ 0 ∧
    ((0 : ℚ) = 0 → divDivisor (0 : ℚ) = 1) ∧
    ((0 : ℚ) ≠ 0 → divDivisor (0 : ℚ) = 0) ∧
    (synthDivResult (3 : ℚ) 0).1 = numTagF ℚ ∧
    (synthDivResult (3 : ℚ) 0).2 * divDivisor (0 : ℚ) = 3 :=
  c7_div_zero_divisor_substitution 3 0

/-- A field value representing a 64-bit unsigned integer. -/
def isU64 {F : Type} [CommRing F] (v : F) : Prop :=
  ∃ n : ℕ, n < 2 ^ 64 ∧ v = (n : F)

/-- Modelled from the spec: the satisfaction of `implies_u64` over witness
values — "64-bit range checks" gated by the premise (the gadget from the
missing `circuit/gadgets/constraints.rs` decomposes the value into 64 bits
and enforces the packing only under the premise). -/
def impliesU64Sem {F : Type} [CommRing F] (p v : F) : Prop :=
  p = 1 → isU64 v

/-- The constraints emitted by `Op::DivRem64` synthesis (`circuit.rs`,
lines 973-1014): `implies_u64` on the quotient, the remainder and the
difference `b − rem` (computed by the `sub` gadget), together with the
unconditional `enforce_product_and_sum` relation `b · div + rem = a`. -/
def divRem64Constraints {F : Type} [CommRing F] (nd a b dv rm : F) : Prop :=
  impliesU64Sem nd dv ∧ impliesU64Sem nd rm ∧ impliesU64Sem nd (b - rm) ∧
  b * dv + rm = a

/-- The two pointers bound by `Op::DivRem64` synthesis: quotient and
remainder, each with the `Num` tag. -/
def divRem64Bound {F : Type} [CommRing F] (dv rm : F) : (F × F) × (F × F) :=
  ((numTagF F, dv), (numTagF F, rm))

/-- Claim C8: for unsigned 64-bit division with remainder under a true
not-dummy premise, the emitted constraints enforce the product-and-sum
relation `a = b·div + rem` together with 64-bit range checks — `div`, `rem`
and the difference `b − rem` each fit in 64 bits — and the quotient and
remainder are bound as Num-tagged pointers. -/
theorem c8_divrem64_constraints {F : Type} [CommRing F] (a b dv rm : F)
    (h : divRem64Constraints 1 a b dv rm) :
    a = b * dv + rm ∧ isU64 dv ∧ isU64 rm ∧ isU64 (b - rm) ∧
    (divRem64Bound dv rm).1.1 = numTagF F ∧
    (divRem64Bound dv rm).2.1 = numTagF F := by
  obtain ⟨hdv, hrm, hdiff, hrel⟩ := h
  exact ⟨hrel.symm, hdv rfl, hrm rfl, hdiff rfl, rfl, rfl⟩

/-- Witness for C8 at the concrete input `a = 7`, `b = 2`, `div = 3`,
`rem = 1` over the rationals. -/
theorem c8_divrem64_constraints_witness :
    (7 : ℚ) = 2 * 3 + 1 ∧ isU64 (3 : ℚ) ∧ isU64 (1 : ℚ) ∧ isU64 ((2 : ℚ) - 1) ∧
    (divRem64Bound (3 : ℚ) 1).1.1 = numTagF ℚ ∧
    (divRem64Bound (3 : ℚ) 1).2.1 = numTagF ℚ :=
  c8_divrem64_constraints 7 2 3 1
    ⟨fun _ => ⟨3, by norm_num, by norm_num⟩,
     fun _ => ⟨1, by norm_num, by norm_num⟩,
     fun _ => ⟨1, by norm_num, by norm_num⟩,
     by norm_num⟩

/-- The value component bound for `Op::Null` by `synthesize_frame`
(`circuit.rs`, lines 737-753): the Poseidon 8-ary hash of eight zeros for
the four shimmed continuation tags, and the field zero otherwise. -/
def nullSynthValue {F : Type} [Zero F] (store : StoreModel F) : Tag → F
  | .cont .outermost => store.hash8zeros
  | .cont .error => store.hash8zeros
  | .cont .dummy => store.hash8zeros
  | .cont .terminal => store.hash8zeros
  | _ => 0

/-- The value constant allocated for `Op::Null` by `Block::alloc_globals`
(`circuit.rs`, lines 293-305). -/
def nullGlobalsValue {F : Type} [Zero F] (store : StoreModel F) : Tag → F
  | .cont .outermost => store.hash8zeros
  | .cont .error => store.hash8zeros
  | .cont .dummy => store.hash8zeros
  | .cont .terminal => store.hash8zeros
  | _ => 0

/-- Claim C10: for `Op::Null` with a continuation tag among Outermost,
Error, Dummy or Terminal, the value component of the bound pointer is the
Poseidon 8-ary hash of eight zero field elements (the Lurk-Alpha
compatibility shim), not the field zero; for every other tag the value
component is the field zero; and the global constant allocation and the
per-op synthesis apply the same rule. -/
theorem c10_null_shim_value {F : Type} [Zero F] (store : StoreModel F)
    (t : Tag) :
    nullSynthValue store t = nullGlobalsValue store t ∧
    nullSynthValue store t =
      (if t.isContShim then store.hash8zeros else 0) := by
  cases t with
  | expr e => cases e <;> exact ⟨rfl, rfl⟩
  | cont c => cases c <;> exact ⟨rfl, rfl⟩

/-- Hash a list of store pointers to their (tag, value) pairs
(`store.hash_ptr` applied pointwise). -/
def hashPtrVals {F : Type} (store : StoreModel F) (ps : List ℕ) : List (F × F) :=
  ps.map fun p => ((store.hashPtr p).tagF, (store.hashPtr p).val)

/-- A coprocessor as seen by the synthesizer (`Coprocessor`/`CoCircuit`,
`coprocessor/mod.rs`): whether it implements a circuit
(`has_circuit`), the output pointer values its `synthesize_lem_internal`
produces from the input pointer values, and the number of constraints that
synthesis emits. -/
structure CoprocModel (F : Type) where
  hasCircuit : Bool
  synth : List (F × F) → List (F × F)
  synthCost : ℕ

/-- The recorded-output step of the `Op::Cproc` arm (`circuit.rs`, lines
606-618): on a concrete non-blank path, fetch the evaluator's recorded
output pointers for this invocation, fail if the op's output arity differs,
and hash them; otherwise produce dummy z-pointers. -/
def cprocCollected {F : Type} [Zero F] (store : StoreModel F) (out : ℕ)
    (cprocOutputs : List (List ℕ)) (cprocIdx : ℕ) (ndnb : Bool) :
    Except String (List (F × F)) :=
  if ndnb then
    match cprocOutputs.get? cprocIdx with
    | none => .error "missing coprocessor hint"
    | some collectedPtrs =>
      if out = collectedPtrs.length then .ok (hashPtrVals store collectedPtrs)
      else .error "incompatible output length for coprocessor"
  else .ok (List.replicate out ((0 : F), (0 : F)))

/-- The `Op::Cproc` arm of `synthesize_frame` (`circuit.rs`, lines
601-669): look the coprocessor up in the lang; compute the recorded (or
dummy) output z-pointers; with a circuit, run the coprocessor's synthesis,
fail on an output-arity mismatch, and on a concrete non-blank path fail if
any synthesized pointer differs from the recorded one; without a circuit,
bind the recorded values as fresh variables with no constraints.  The
result is the list of bound output pointer values together with the number
of constraints emitted. -/
def synthCproc {F : Type} [Zero F] [DecidableEq F] (store : StoreModel F)
    (L : ℕ → Option (CoprocModel F)) (sym : ℕ) (out : ℕ)
    (inpVals : List (F × F)) (cprocOutputs : List (List ℕ)) (cprocIdx : ℕ)
    (notDummyVal blank : Bool) : Except String (List (F × F) × ℕ) :=
  match L sym with
  | none => .error "coprocessor not found"
  | some cp =>
    match cprocCollected store out cprocOutputs cprocIdx (notDummyVal && !blank) with
    | .error e => .error e
    | .ok collected =>
      if cp.hasCircuit then
        if out = (cp.synth inpVals).length then
          if (notDummyVal && !blank) = true ∧ cp.synth inpVals ≠ collected then
            .error "mismatch between evaluate and synthesize outputs"
          else .ok (cp.synth inpVals, cp.synthCost)
        else .error "incompatible output length for coprocessor"
      else .ok (collected, 0)

/-- Claim C6: for a coprocessor invocation, if the coprocessor declares a
circuit contribution, the synthesized output pointers must match
pointer-for-pointer (tag and content hash) the pointers the coprocessor's
evaluation produced for the same concrete inputs — on a concrete non-blank
path a successful synthesis returns exactly the recorded pointers'
z-values, any value mismatch is a fatal synthesis error, and an
output-arity mismatch is a fatal synthesis error; if the coprocessor
declares no circuit contribution, the synthesizer binds the recorded hint
values as fresh, unconstrained circuit variables (no constraints emitted),
or dummy values on a virtual or blank path. -/
theorem c6_cproc_contract {F : Type} [Zero F] [DecidableEq F]
    (store : StoreModel F) (L : ℕ → Option (CoprocModel F)) (sym : ℕ)
    (cp : CoprocModel F) (out : ℕ) (inpVals : List (F × F))
    (couts : List (List ℕ)) (idx : ℕ) (hL : L sym = some cp) :
    (cp.hasCircuit = true → ∀ r cost,
      synthCproc store L sym out inpVals couts idx true false = .ok (r, cost) →
      ∃ collected, couts.get? idx = some collected ∧ out = collected.length ∧
        r = cp.synth inpVals ∧ r = hashPtrVals store collected) ∧
    (cp.hasCircuit = true → ∀ collected, couts.get? idx = some collected →
      out = collected.length →
      cp.synth inpVals ≠ hashPtrVals store collected →
      ∃ e, synthCproc store L sym out inpVals couts idx true false = .error e) ∧
    (cp.hasCircuit = true → ∀ collected, couts.get? idx = some collected →
      out = collected.length → out ≠ (cp.synth inpVals).length →
      ∃ e, synthCproc store L sym out inpVals couts idx true false = .error e) ∧
    (cp.hasCircuit = false → ∀ collected, couts.get? idx = some collected →
      out = collected.length →
      synthCproc store L sym out inpVals couts idx true false =
        .ok (hashPtrVals store collected, 0)) ∧
    (cp.hasCircuit = false → ∀ nd bl, nd = false ∨ bl = true →
      synthCproc store L sym out inpVals couts idx nd bl =
        .ok (List.replicate out ((0 : F), (0 : F)), 0)) := by
  refine ⟨?_, ?_, ?_, ?_, ?_⟩
  · intro hcirc r cost hok
    cases hg : couts.get? idx with
    | none =>
      have hcol : cprocCollected store out couts idx (true && !false) =
          (.error "missing coprocessor hint" : Except String (List (F × F))) := by
        simp [cprocCollected, ← List.get?_eq_getElem?, hg]
      rw [synthCproc, hL] at hok
      rw [hcol] at hok
      exact absurd hok (by simp)
    | some collected =>
      by_cases hlen : out = collected.length
      · have hcol : cprocCollected store out couts idx (true && !false) =
            .ok (hashPtrVals store collected) := by
          simp [cprocCollected, ← List.get?_eq_getElem?, hg, hlen]
        rw [synthCproc, hL] at hok
        rw [hcol] at hok
        simp only [hcirc, if_true, Bool.and_self, Bool.not_false, true_and] at hok
        by_cases hslen : out = (cp.synth inpVals).length
        · rw [if_pos hslen] at hok
          by_cases hmis : cp.synth inpVals ≠ hashPtrVals store collected
          · rw [if_pos hmis] at hok
            exact absurd hok (by simp)
          · rw [if_neg hmis] at hok
            rw [not_not] at hmis
            simp only [Except.ok.injEq, Prod.mk.injEq] at hok
            exact ⟨collected, rfl, hlen, hok.1.symm, by rw [← hok.1]; exact hmis⟩
        · rw [if_neg hslen] at hok
          exact absurd hok (by simp)
      · have hcol : cprocCollected store out couts idx (true && !false) =
            (.error "incompatible output length for coprocessor" :
              Except String (List (F × F))) := by
          simp [cprocCollected, ← List.get?_eq_getElem?, hg, hlen]
        rw [synthCproc, hL] at hok
        rw [hcol] at hok
        exact absurd hok (by simp)
  · intro hcirc collected hg hlen hmis
    have hcol : cprocCollected store out couts idx (true && !false) =
        .ok (hashPtrVals store collected) := by
      simp [cprocCollected, ← List.get?_eq_getElem?, hg, hlen]
    rw [synthCproc, hL, hcol]
    simp only [hcirc, if_true, Bool.and_self, Bool.not_false, true_and]
    by_cases hslen : out = (cp.synth inpVals).length
    · rw [if_pos hslen, if_pos hmis]
      exact ⟨_, rfl⟩
    · rw [if_neg hslen]
      exact ⟨_, rfl⟩
  · intro hcirc collected hg hlen hslen
    have hcol : cprocCollected store out couts idx (true && !false) =
        .ok (hashPtrVals store collected) := by
      simp [cprocCollected, ← List.get?_eq_getElem?, hg, hlen]
    rw [synthCproc, hL, hcol]
    simp only [hcirc, if_true]
    rw [if_neg hslen]
    exact ⟨_, rfl⟩
  · intro hcirc collected hg hlen
    have hcol : cprocCollected store out couts idx (true && !false) =
        .ok (hashPtrVals store collected) := by
      simp [cprocCollected, ← List.get?_eq_getElem?, hg, hlen]
    rw [synthCproc, hL, hcol]
    simp [hcirc]
  · intro hcirc nd bl hvb
    have hndnb : (nd && !bl) = false := by
      cases hvb with
      | inl h => rw [h]; rfl
      | inr h => rw [h]; simp
    have hcol : cprocCollected store out couts idx (nd && !bl) =
        .ok (List.replicate out ((0 : F), (0 : F))) := by
      rw [cprocCollected, hndnb]
      simp
    rw [synthCproc, hL, hcol]
    simp [hcirc]

/-- Witness for C6 at a concrete instance over the rationals: a
circuit-less coprocessor bound in the lang; on the concrete non-blank path
the recorded pointer is re-bound without constraints. -/
theorem c6_cproc_contract_witness :
    synthCproc qStore (fun _ => some ⟨false, id, 0⟩) 0 1 [] [[3]] 0 true false =
      .ok (hashPtrVals qStore [3], 0) :=
  ((c6_cproc_contract qStore (fun _ => some ⟨false, id, 0⟩) 0 ⟨false, id, 0⟩ 1 []
    [[3]] 0 rfl).2.2.2.1) rfl [3] rfl rfl

/-- A frame as seen by the batch synthesis orchestrators of
`multiframe.rs`: input and output pointers and the blank flag. -/
structure StepFrame where
  input : List ℕ
  output : List ℕ
  blank : Bool

/-- The per-frame synthesizer as called by both orchestrators: given the
frame index (which determines the slot-witness slice
`sws[i * num_slots_per_frame ..]` passed in both versions), the allocated
input pointer values and the frame, `Func::synthesize_frame` extends the
witness with a list of auxiliary values and returns the allocated output
pointer values.  Both orchestrators invoke the very same function, so the
model abstracts over it. -/
def FrameSynth (F : Type) : Type := ℕ → List (F × F) → StepFrame → List F × List (F × F)

/-- Models `assert_eq_ptrs_aptrs` (`multiframe.rs`, lines 121-141): the pointer
and allocated-pointer slices must have the same length and, unless the
frame is blank, the allocated values must equal the hashed pointers. -/
def assertEqPtrsAptrs {F : Type} [DecidableEq F] (store : StoreModel F)
    (blank : Bool) (ptrs : List ℕ) (aptrs : List (F × F)) : Bool :=
  (ptrs.length == aptrs.length) && (blank || (hashPtrVals store ptrs == aptrs))

theorem assertEqPtrsAptrs_iff {F : Type} [DecidableEq F] (store : StoreModel F)
    (blank : Bool) (ptrs : List ℕ) (aptrs : List (F × F)) :
    assertEqPtrsAptrs store blank ptrs aptrs = true ↔
      (ptrs.length = aptrs.length ∧
        (blank = true ∨ hashPtrVals store ptrs = aptrs)) := by
  rw [assertEqPtrsAptrs]
  simp

/-- The fold of `synthesize_frames_sequential` (`multiframe.rs`, lines
207-241): each frame is synthesized on the previous frame's output values,
the input and output arities are asserted equal, the output values are
asserted against the frame's recorded output pointers, and the auxiliary
witness values are appended in frame order.  The result is the appended
auxiliary values and the final output. -/
def seqSynthGo {F : Type} [DecidableEq F] (store : StoreModel F)
    (sf : FrameSynth F) : ℕ → List (F × F) → List StepFrame →
    Except String (List F × List (F × F))
  | _, inp, [] => .ok ([], inp)
  | i, inp, fr :: rest =>
    let fa := sf i inp fr
    if inp.length = fa.2.length then
      if assertEqPtrsAptrs store fr.blank fr.output fa.2 then
        match seqSynthGo store sf (i + 1) fa.2 rest with
        | .error e => .error e
        | .ok (aux, outv) => .ok (fa.1 ++ aux, outv)
      else .error "assertion failed"
    else .error "length mismatch"

/-- Models `synthesize_frames_sequential`, starting at frame index 0 from the
circuit's allocated input. -/
def synthFramesSequential {F : Type} [DecidableEq F] (store : StoreModel F)
    (sf : FrameSynth F) (input : List (F × F)) (frames : List StepFrame) :
    Except String (List F × List (F × F)) :=
  seqSynthGo store sf 0 input frames

/-- The auxiliary values contributed by allocating a frame's input pointers
afresh inside its private witness (`multiframe.rs`, lines 270-281): tag and
hash of each hashed input pointer. -/
def inputAllocAux {F : Type} (store : StoreModel F) (fr : StepFrame) : List F :=
  (hashPtrVals store fr.input).flatMap fun tv => [tv.1, tv.2]

/-- The parallel map of `synthesize_frames_parallel` (`multiframe.rs`,
lines 260-304): every frame is synthesized into its own private witness;
frame 0 takes the circuit's allocated input, every later frame allocates
fresh input variables holding its own recorded input pointers' hashes; the
same arity and output assertions run per frame.  Each entry records the
frame's private auxiliary values (input allocations first) and its
allocated output values. -/
def parFrames {F : Type} [DecidableEq F] (store : StoreModel F)
    (sf : FrameSynth F) (input : List (F × F)) : ℕ → List StepFrame →
    Except String (List (List F × List (F × F)))
  | _, [] => .ok []
  | i, fr :: rest =>
    let allocatedInput := if i = 0 then input else hashPtrVals store fr.input
    let fa := sf i allocatedInput fr
    if allocatedInput.length = fa.2.length then
      if assertEqPtrsAptrs store fr.blank fr.output fa.2 then
        match parFrames store sf input (i + 1) rest with
        | .error e => .error e
        | .ok others =>
            .ok (((if i = 0 then [] else inputAllocAux store fr) ++ fa.1,
                  fa.2) :: others)
      else .error "assertion failed"
    else .error "length mismatch"

/-- The concatenation step of `synthesize_frames_parallel` for all frames
after the first: each drops its first `input.len() * 2` auxiliary entries
— the freshly allocated inputs (`multiframe.rs`, lines 306-313). -/
def parConcatRest {F : Type} (k : ℕ) : List (List F × List (F × F)) → List F
  | [] => []
  | c :: rest => c.1.drop k ++ parConcatRest k rest

/-- The concatenation step of `synthesize_frames_parallel`: the first
frame's auxiliary values are taken whole. -/
def parConcatFirst {F : Type} (k : ℕ) : List (List F × List (F × F)) → List F
  | [] => []
  | c :: rest => c.1 ++ parConcatRest k rest

/-- The final output of the parallel version (`css.pop()`,
`multiframe.rs`, lines 315-322): the last frame's output, or the circuit
input when there were no frames. -/
def lastOutD {F : Type} (dflt : List (F × F)) :
    List (List F × List (F × F)) → List (F × F)
  | [] => dflt
  | [c] => c.2
  | _ :: c :: rest => lastOutD dflt (c :: rest)

/-- Models `synthesize_frames_parallel`: per-frame private witnesses, concatenated
with the duplicate input allocations dropped, and the last frame's
output. -/
def synthFramesParallel {F : Type} [DecidableEq F] (store : StoreModel F)
    (sf : FrameSynth F) (input : List (F × F)) (frames : List StepFrame) :
    Except String (List F × List (F × F)) :=
  match parFrames store sf input 0 frames with
  | .error e => .error e
  | .ok css => .ok (parConcatFirst (2 * input.length) css, lastOutD input css)

/-- Consecutive frames are chained: each frame's input pointers are the
previous frame's output pointers (the `precedes`/`from_frames` invariant of
`multiframe.rs`). -/
def framesChained : List StepFrame → Prop
  | [] => True
  | [_] => True
  | a :: b :: rest => b.input = a.output ∧ framesChained (b :: rest)

/-- The sequential running input matches the head frame's hashed input. -/
def headLinked {F : Type} (store : StoreModel F) (inp : List (F × F)) :
    List StepFrame → Prop
  | [] => True
  | fr :: _ => hashPtrVals store fr.input = inp

theorem length_inputAllocAux {F : Type} (store : StoreModel F) (fr : StepFrame) :
    (inputAllocAux store fr).length = 2 * fr.input.length := by
  rw [inputAllocAux]
  induction fr.input with
  | nil => rfl
  | cons hd tl ih =>
    rw [hashPtrVals] at ih ⊢
    simp only [List.map_cons, List.flatMap_cons] at ih ⊢
    simp only [List.length_append, ih, List.length_cons, List.length_nil]
    omega

theorem length_hashPtrVals {F : Type} (store : StoreModel F) (ps : List ℕ) :
    (hashPtrVals store ps).length = ps.length := by
  rw [hashPtrVals, List.length_map]

theorem lastOutD_cons_irrel {F : Type} (d1 d2 : List (F × F))
    (c : List F × List (F × F)) (l : List (List F × List (F × F))) :
    lastOutD d1 (c :: l) = lastOutD d2 (c :: l) := by
  induction l generalizing c with
  | nil => rw [lastOutD, lastOutD]
  | cons b m ih =>
    have h1 : lastOutD d1 (c :: b :: m) = lastOutD d1 (b :: m) := rfl
    have h2 : lastOutD d2 (c :: b :: m) = lastOutD d2 (b :: m) := rfl
    rw [h1, h2]
    exact ih b

theorem parFrames_length {F : Type} [DecidableEq F] (store : StoreModel F)
    (sf : FrameSynth F) (input : List (F × F)) :
    ∀ (l : List StepFrame) (i : ℕ) (css : List (List F × List (F × F))),
      parFrames store sf input i l = .ok css → css.length = l.length := by
  intro l
  induction l with
  | nil =>
    intro i css h
    rw [parFrames] at h
    simp only [Except.ok.injEq] at h
    rw [← h]
    rfl
  | cons fr rest ih =>
    intro i css h
    rw [parFrames] at h
    by_cases h1 : (if i = 0 then input else hashPtrVals store fr.input).length =
        (sf i (if i = 0 then input else hashPtrVals store fr.input) fr).2.length
    · rw [if_pos h1] at h
      by_cases h2 : assertEqPtrsAptrs store fr.blank fr.output
          (sf i (if i = 0 then input else hashPtrVals store fr.input) fr).2 = true
      · rw [if_pos h2] at h
        cases hp : parFrames store sf input (i + 1) rest with
        | error e => rw [hp] at h; exact absurd h (by simp)
        | ok o =>
          rw [hp] at h
          simp only [Except.ok.injEq] at h
          rw [← h, List.length_cons, List.length_cons, ih (i + 1) o hp]
      · rw [if_neg h2] at h
        exact absurd h (by simp)
    · rw [if_neg h1] at h
      exact absurd h (by simp)

theorem c5Inner {F : Type} [DecidableEq F] (store : StoreModel F)
    (sf : FrameSynth F) (input : List (F × F)) :
    ∀ (frames : List StepFrame) (i : ℕ) (inp : List (F × F)) (aux : List F)
      (outv : List (F × F)),
      (∀ fr ∈ frames, fr.blank = false) →
      framesChained frames →
      headLinked store inp frames →
      inp.length = input.length →
      seqSynthGo store sf (i + 1) inp frames = .ok (aux, outv) →
      ∃ css, parFrames store sf input (i + 1) frames = .ok css ∧
        parConcatRest (2 * input.length) css = aux ∧
        lastOutD inp css = outv := by
  intro frames
  induction frames with
  | nil =>
    intro i inp aux outv _ _ _ _ hok
    rw [seqSynthGo] at hok
    simp only [Except.ok.injEq, Prod.mk.injEq] at hok
    refine ⟨[], by rw [parFrames], ?_, ?_⟩
    · rw [parConcatRest, hok.1]
    · rw [lastOutD, hok.2]
  | cons fr rest ih =>
    intro i inp aux outv hnb hch hhl hlen hok
    rw [seqSynthGo] at hok
    rw [headLinked] at hhl
    by_cases hl1 : inp.length = (sf (i + 1) inp fr).2.length
    case neg => rw [if_neg hl1] at hok; exact absurd hok (by simp)
    rw [if_pos hl1] at hok
    by_cases ha : assertEqPtrsAptrs store fr.blank fr.output
        (sf (i + 1) inp fr).2 = true
    case neg => rw [if_neg ha] at hok; exact absurd hok (by simp)
    rw [if_pos ha] at hok
    cases hseq : seqSynthGo store sf (i + 1 + 1) (sf (i + 1) inp fr).2 rest with
    | error e => rw [hseq] at hok; exact absurd hok (by simp)
    | ok p =>
    rw [hseq] at hok
    simp only [Except.ok.injEq, Prod.mk.injEq] at hok
    have hfrnb : fr.blank = false := hnb fr (List.mem_cons_self fr rest)
    have hout : hashPtrVals store fr.output = (sf (i + 1) inp fr).2 := by
      have hiff := (assertEqPtrsAptrs_iff store fr.blank fr.output
        (sf (i + 1) inp fr).2).mp ha
      cases hiff.2 with
      | inl hb => rw [hfrnb] at hb; exact absurd hb (by simp)
      | inr hv => exact hv
    have hrest_nb : ∀ g ∈ rest, g.blank = false := fun g hg =>
      hnb g (List.mem_cons_of_mem fr hg)
    have hrest_ch : framesChained rest := by
      cases rest with
      | nil => exact trivial
      | cons b l => exact hch.2
    have hrest_hl : headLinked store (sf (i + 1) inp fr).2 rest := by
      cases rest with
      | nil => exact trivial
      | cons b l =>
        rw [headLinked]
        have hb : b.input = fr.output := hch.1
        rw [hb, hout]
    have hlen2 : (sf (i + 1) inp fr).2.length = input.length := by
      omega
    obtain ⟨css, hpar, hcat, hlast⟩ :=
      ih (i + 1) (sf (i + 1) inp fr).2 p.1 p.2 hrest_nb hrest_ch hrest_hl
        hlen2 hseq
    have hi0 : ¬(i + 1 = 0) := by omega
    have hinp_eq : hashPtrVals store fr.input = inp := hhl
    refine ⟨((inputAllocAux store fr) ++ (sf (i + 1) inp fr).1,
            (sf (i + 1) inp fr).2) :: css, ?_, ?_, ?_⟩
    · rw [parFrames]
      simp only [if_neg hi0, hinp_eq]
      rw [if_pos hl1, if_pos ha, hpar]
    · rw [parConcatRest, hcat]
      have hdrop : (inputAllocAux store fr ++ (sf (i + 1) inp fr).1).drop
          (2 * input.length) = (sf (i + 1) inp fr).1 := by
        have hial : (inputAllocAux store fr).length = 2 * input.length := by
          rw [length_inputAllocAux]
          have hfi : fr.input.length = inp.length := by
            rw [← hinp_eq, length_hashPtrVals]
          omega
        rw [← hial, List.drop_left]
      rw [hdrop, hok.1]
    · cases rest with
      | nil =>
        rw [seqSynthGo] at hseq
        simp only [Except.ok.injEq] at hseq
        rw [parFrames] at hpar
        simp only [Except.ok.injEq] at hpar
        rw [← hpar, lastOutD, ← hok.2, ← hseq]
      | cons b l =>
        have hlc := parFrames_length store sf input (b :: l) (i + 1 + 1) css hpar
        cases css with
        | nil => simp at hlc
        | cons c rest2 =>
          have h1 : lastOutD inp
              ((inputAllocAux store fr ++ (sf (i + 1) inp fr).1,
                (sf (i + 1) inp fr).2) :: c :: rest2) =
              lastOutD inp (c :: rest2) := rfl
          rw [h1, lastOutD_cons_irrel inp ((sf (i + 1) inp fr).2) c rest2, hlast,
            hok.2]

theorem parFrames_zero_cons {F : Type} [DecidableEq F] (store : StoreModel F)
    (sf : FrameSynth F) (input : List (F × F)) (fr : StepFrame)
    (rest : List StepFrame) :
    parFrames store sf input 0 (fr :: rest) =
      (if input.length = (sf 0 input fr).2.length then
        if assertEqPtrsAptrs store fr.blank fr.output (sf 0 input fr).2 then
          match parFrames store sf input 1 rest with
          | .error e => .error e
          | .ok others =>
              .ok (((sf 0 input fr).1, (sf 0 input fr).2) :: others)
        else .error "assertion failed"
      else .error "length mismatch") := rfl

/-- Claim C5: synthesizing a batch of chained, non-blank frames
sequentially and synthesizing the same batch with one parallel task per
frame are observationally equivalent: whenever the sequential version
succeeds, the parallel version succeeds with the identical witness vector
(the concatenated auxiliary values, with each later frame's duplicate
input allocations dropped) and the identical allocated output pointer
values, for the same input batch and the same per-frame synthesizer. -/
theorem c5_sequential_parallel_equiv {F : Type} [DecidableEq F]
    (store : StoreModel F) (sf : FrameSynth F) (input : List (F × F))
    (frames : List StepFrame) (aux : List F) (outv : List (F × F))
    (hnb : ∀ fr ∈ frames, fr.blank = false)
    (hch : framesChained frames)
    (hok : synthFramesSequential store sf input frames = .ok (aux, outv)) :
    synthFramesParallel store sf input frames = .ok (aux, outv) := by
  cases frames with
  | nil =>
    rw [synthFramesSequential, seqSynthGo] at hok
    simp only [Except.ok.injEq, Prod.mk.injEq] at hok
    have hp0 : parFrames store sf input 0 ([] : List StepFrame) = .ok [] := by
      rw [parFrames]
    rw [synthFramesParallel, hp0]
    show Except.ok (parConcatFirst (2 * input.length) [], lastOutD input []) =
      Except.ok (aux, outv)
    rw [parConcatFirst, lastOutD, hok.1, hok.2]
  | cons fr rest =>
    rw [synthFramesSequential, seqSynthGo] at hok
    by_cases hl1 : input.length = (sf 0 input fr).2.length
    case neg => rw [if_neg hl1] at hok; exact absurd hok (by simp)
    rw [if_pos hl1] at hok
    by_cases ha : assertEqPtrsAptrs store fr.blank fr.output
        (sf 0 input fr).2 = true
    case neg => rw [if_neg ha] at hok; exact absurd hok (by simp)
    rw [if_pos ha] at hok
    cases hseq : seqSynthGo store sf (0 + 1) (sf 0 input fr).2 rest with
    | error e => rw [hseq] at hok; exact absurd hok (by simp)
    | ok p =>
    rw [hseq] at hok
    simp only [Except.ok.injEq, Prod.mk.injEq] at hok
    have hfrnb : fr.blank = false := hnb fr (List.mem_cons_self fr rest)
    have hout : hashPtrVals store fr.output = (sf 0 input fr).2 := by
      have hiff := (assertEqPtrsAptrs_iff store fr.blank fr.output
        (sf 0 input fr).2).mp ha
      cases hiff.2 with
      | inl hb => rw [hfrnb] at hb; exact absurd hb (by simp)
      | inr hv => exact hv
    have hrest_nb : ∀ g ∈ rest, g.blank = false := fun g hg =>
      hnb g (List.mem_cons_of_mem fr hg)
    have hrest_ch : framesChained rest := by
      cases rest with
      | nil => exact trivial
      | cons b l => exact hch.2
    have hrest_hl : headLinked store (sf 0 input fr).2 rest := by
      cases rest with
      | nil => exact trivial
      | cons b l =>
        rw [headLinked]
        have hb : b.input = fr.output := hch.1
        rw [hb, hout]
    have hlen2 : (sf 0 input fr).2.length = input.length := by omega
    obtain ⟨css, hpar, hcat, hlast⟩ :=
      c5Inner store sf input rest 0 (sf 0 input fr).2 p.1 p.2 hrest_nb
        hrest_ch hrest_hl hlen2 hseq
    have hpar0 : parFrames store sf input 0 (fr :: rest) =
        .ok (((sf 0 input fr).1, (sf 0 input fr).2) :: css) := by
      rw [parFrames_zero_cons, if_pos hl1, if_pos ha, hpar]
    rw [synthFramesParallel, hpar0]
    show Except.ok
        (parConcatFirst (2 * input.length)
          (((sf 0 input fr).1, (sf 0 input fr).2) :: css),
         lastOutD input (((sf 0 input fr).1, (sf 0 input fr).2) :: css)) =
      Except.ok (aux, outv)
    rw [parConcatFirst, hcat, hok.1]
    cases rest with
    | nil =>
      rw [seqSynthGo] at hseq
      simp only [Except.ok.injEq] at hseq
      rw [parFrames] at hpar
      simp only [Except.ok.injEq] at hpar
      rw [← hpar, lastOutD, ← hok.2, ← hseq]
    | cons b l =>
      have hlc := parFrames_length store sf input (b :: l) (0 + 1) css hpar
      cases css with
      | nil => simp at hlc
      | cons c rest2 =>
        have h1 : lastOutD input
            (((sf 0 input fr).1, (sf 0 input fr).2) :: c :: rest2) =
            lastOutD input (c :: rest2) := rfl
        rw [h1, lastOutD_cons_irrel input ((sf 0 input fr).2) c rest2, hlast,
          hok.2]

/-- A trivial per-frame synthesizer for the C5 witness: no auxiliary
values, output equal to the input values. -/
def c5Sf : FrameSynth ℚ := fun _ inp _ => ([], inp)

/-- A concrete frame for the C5 witness. -/
def c5Frame : StepFrame := ⟨[], [], false⟩

/-- Witness for C5 at a concrete instance: one non-blank frame with empty
input and output; the sequential result transfers to the parallel one. -/
theorem c5_sequential_parallel_equiv_witness :
    synthFramesParallel qStore c5Sf [] [c5Frame] = .ok ([], []) :=
  c5_sequential_parallel_equiv qStore c5Sf [] [c5Frame] [] []
    (fun fr hfr => by
      rw [List.mem_singleton] at hfr
      rw [hfr]
      rfl)
    trivial
    (by rfl)

end LurkLEM
